import Mathlib

/-!
cavalier/parse: selection of exported functions and extraction of their parameters.

A shallow embedding of `parse/parse.go`.  Syntax nodes of `go/ast` are records that
carry the address of the node (`ptr`), because the comment map and the type
information of the checker are keyed by node identity.  The collaborators the file
calls but does not define (`unicode.IsUpper`, `types.Info.TypeOf`,
`ast.NewCommentMap`, `CommentGroup.Text`) enter as inputs.  A run-time panic of the
Go code (nil dereference, index out of range) is the `panic` result.
-/

namespace Parse

/-! ## Data model -/

/-- Kinds of basic types, `types.BasicKind` of go/types, in declaration order. -/
inductive BasicKind
  | Invalid
  | Bool
  | Int
  | Int8
  | Int16
  | Int32
  | Int64
  | Uint
  | Uint8
  | Uint16
  | Uint32
  | Uint64
  | Uintptr
  | Float32
  | Float64
  | Complex64
  | Complex128
  | String
  | UnsafePointer
  | UntypedBool
  | UntypedInt
  | UntypedRune
  | UntypedFloat
  | UntypedComplex
  | UntypedString
  | UntypedNil
  deriving DecidableEq, Repr

/-- Resolved types as `parse.go` inspects them: it tests for `*types.Pointer`, for
`*types.Basic`, and otherwise only prints the type.  `Other` stands for every
remaining type (named, struct, slice, interface, ...) with its printed form. -/
inductive GoType
  | Basic (kind : BasicKind) (name : String)
  | Pointer (elem : GoType)
  | Other (str : String)
  deriving DecidableEq, Repr

/-- Printed form of a type, the method `String()` of `types.Type`. -/
def GoType.String : GoType → String
  | .Basic _ name => name
  | .Pointer elem => "*" ++ elem.String
  | .Other str => str

/-- Identifier node `ast.Ident`. -/
structure Ident where
  ptr : Nat
  Name : String
  deriving DecidableEq, Repr

/-- Type expression node `ast.Expr`; the code only hands it to `info.TypeOf`. -/
structure Expr where
  ptr : Nat
  src : String
  deriving DecidableEq, Repr

/-- Parameter or result field `ast.Field`: names sharing one type expression
(`Typ` is the field `Type`, a reserved word here). -/
structure Field where
  ptr : Nat
  Names : List Ident
  Typ : Expr
  deriving DecidableEq, Repr

/-- Field list `ast.FieldList`. -/
structure FieldList where
  List : List Field
  deriving DecidableEq, Repr

/-- Function type `ast.FuncType`: `Params` is non-nil, `Results` may be nil. -/
structure FuncType where
  Params : FieldList
  Results : Option FieldList
  deriving DecidableEq, Repr

/-- Function declaration `ast.FuncDecl`; `Recv` is nil for a plain function. -/
structure FuncDecl where
  ptr : Nat
  Recv : Option FieldList
  Name : Ident
  Typ : FuncType
  deriving DecidableEq, Repr

/-- Top-level declaration `ast.Decl`. -/
inductive Decl
  | funcDecl (fn : FuncDecl)
  | genDecl (ptr : Nat)
  | badDecl (ptr : Nat)
  deriving DecidableEq, Repr

/-- Merged compilation unit `ast.File`, reduced to what the code reads. -/
structure File where
  Decls : List Decl
  deriving DecidableEq, Repr

/-- Comment group `ast.CommentGroup`, with the text its method `Text()` renders. -/
structure CommentGroup where
  Text : String
  deriving DecidableEq, Repr

/-- Comment map `ast.CommentMap`: the groups associated with the node at an address. -/
abbrev CommentMap := Nat → List CommentGroup

/-- Type information `types.Info`, through its method `TypeOf` (nil is `none`). -/
structure Info where
  TypeOf : Expr → Option GoType

/-- Catalogue parameter, `Param` of parse.go 23-28. -/
structure Param where
  Name : String
  Typ : BasicKind
  IsPointer : Bool
  Comment : String
  deriving DecidableEq, Repr

/-- Catalogue entry, `Function` of parse.go 16-21. -/
structure Function where
  Name : String
  Params : List Param
  IsError : Bool
  Comment : String
  deriving DecidableEq, Repr

/-- Run-time panics the code can raise. -/
inductive Panic
  | nilDereference
  | indexOutOfRange
  deriving DecidableEq, Repr

/-- Outcome of a call: a returned value or a panic. -/
inductive Res (α : Type)
  | ok (val : α)
  | panic (p : Panic)
  deriving DecidableEq, Repr

/-- One call of `log.Printf`: the format and the rendered arguments. -/
structure LogRecord where
  format : String
  args : List String
  deriving DecidableEq, Repr

/-! ## Operations -/

/-- Method `NumFields` of `*ast.FieldList`: one per name, one per unnamed field; 0 on nil. -/
def NumFields : Option FieldList → Nat
  | none => 0
  | some f => f.List.foldl (fun n g => n + (if g.Names.length = 0 then 1 else g.Names.length)) 0

/-- Function `strings.Join`. -/
def Join : List String → String → String
  | [], _ => ""
  | [a], _ => a
  | a :: b :: rest, sep => a ++ sep ++ Join (b :: rest) sep

/-- Function `combine`, parse.go 135-141. -/
def combine (comments : List CommentGroup) : String :=
  Join (comments.map (fun comment => comment.Text)) " "

/-- Loop of `exportedFuncs`, parse.go 147-160, with `fns` the slice built so far. -/
def exportedFuncsLoop (isUpper : Char → Bool) : List Decl → List FuncDecl → Res (List FuncDecl)
  | [], fns => .ok fns
  | .funcDecl fn :: rest, fns =>
    if fn.Recv.isSome then exportedFuncsLoop isUpper rest fns
    else
      match fn.Name.Name.data with
      | [] => .panic .indexOutOfRange
      | c :: _ =>
        if isUpper c then exportedFuncsLoop isUpper rest (fns ++ [fn])
        else exportedFuncsLoop isUpper rest fns
  | _ :: rest, fns => exportedFuncsLoop isUpper rest fns

/-- Function `exportedFuncs`, parse.go 145-162. -/
def exportedFuncs (isUpper : Char → Bool) (f : File) : Res (List FuncDecl) :=
  exportedFuncsLoop isUpper f.Decls []

/-- Loop of `errorOrVoid`, parse.go 169-191, with `fds` the slice built so far. -/
def errorOrVoidLoop (info : Info) : List FuncDecl → List FuncDecl → Res (List FuncDecl)
  | [], fds => .ok fds
  | fn :: rest, fds =>
    let res := fn.Typ.Results
    if NumFields res > 1 then errorOrVoidLoop info rest fds
    else if NumFields res = 0 then errorOrVoidLoop info rest (fds ++ [fn])
    else
      match res with
      | none => .panic .nilDereference
      | some fl =>
        match fl.List with
        | [] => .panic .indexOutOfRange
        | ret :: _ =>
          if ret.Names.length > 1 then errorOrVoidLoop info rest fds
          else
            match info.TypeOf ret.Typ with
            | some t =>
              if t.String = "error" then errorOrVoidLoop info rest (fds ++ [fn])
              else errorOrVoidLoop info rest fds
            | none => errorOrVoidLoop info rest fds

/-- Function `errorOrVoid`, parse.go 166-193. -/
def errorOrVoid (fns : List FuncDecl) (info : Info) : Res (List FuncDecl) :=
  errorOrVoidLoop info fns []

/-- Loop over the names of one field, parse.go 114-126. -/
def namesLoop (cmtMap : CommentMap) (fieldCmt : String) (b : BasicKind) (pointer : Bool) :
    List Ident → List Param → List Param
  | [], params => params
  | name :: rest, params =>
    let nameCmt := combine (cmtMap name.ptr)
    let nameCmt := if nameCmt = "" then fieldCmt else nameCmt
    namesLoop cmtMap fieldCmt b pointer rest
      (params ++ [{ Name := name.Name, Typ := b, IsPointer := pointer, Comment := nameCmt }])

/-- Format of the diagnostic of parse.go 106. -/
def unsafeFormat : String :=
  "Can't create command for function %q because its parameter %q is an unsafe.Pointer."

/-- Pointer test of parse.go 98-102: the type to classify and the flag `pointer`. -/
def unwrapPointer : Option GoType → Option GoType × Bool
  | some (.Pointer elem) => (some elem, true)
  | t => (t, false)

/-- Loop over the parameter fields of one declaration, parse.go 96-129, with `params`
the slice built so far; on return, the parameters and the diagnostics written. -/
def paramsLoop (info : Info) (cmtMap : CommentMap) (fnName : String) :
    List Field → List Param → Res (List Param × List LogRecord)
  | [], params => .ok (params, [])
  | field :: rest, params =>
    let t := info.TypeOf field.Typ
    let (t, pointer) := unwrapPointer t
    match t with
    | some (.Basic b _) =>
      if b = .UnsafePointer then
        match field.Names with
        | [] => .panic .indexOutOfRange
        | name :: _ => .ok (params, [{ format := unsafeFormat, args := [fnName, name.Name] }])
      else
        let fieldCmt := combine (cmtMap field.ptr)
        paramsLoop info cmtMap fnName rest (namesLoop cmtMap fieldCmt b pointer field.Names params)
    | _ => paramsLoop info cmtMap fnName rest params

/-- Body of the loop of `functions` for one declaration, parse.go 86-130: the entry
and the diagnostics written while building it. -/
def buildFunction (info : Info) (cmtMap : CommentMap) (fn : FuncDecl) :
    Res (Function × List LogRecord) :=
  let name := fn.Name.Name
  let comment := combine (cmtMap fn.ptr)
  match fn.Typ.Results with
  | none => .panic .nilDereference
  | some results =>
    let isError := decide (results.List.length > 0)
    match paramsLoop info cmtMap fn.Name.Name fn.Typ.Params.List [] with
    | .panic p => .panic p
    | .ok (params, out) =>
      .ok ({ Name := name, Params := params, IsError := isError, Comment := comment }, out)

/-- Loop of `functions`, parse.go 85-131, with the entries and the diagnostics so far;
the diagnostics written before a panic stay written. -/
def functionsLoop (info : Info) (cmtMap : CommentMap) :
    List FuncDecl → List Function → List LogRecord → List LogRecord × Res (List Function)
  | [], functions, log => (log, .ok functions)
  | fn :: rest, functions, log =>
    match buildFunction info cmtMap fn with
    | .panic p => (log, .panic p)
    | .ok (entry, out) => functionsLoop info cmtMap rest (functions ++ [entry]) (log ++ out)

/-- Observable outcome of `functions`: the diagnostic lines written, and either the
returned pair (catalogue, error value; `none` is the nil error) or a panic. -/
structure Run where
  log : List LogRecord
  result : Res (List Function × Option String)
  deriving DecidableEq, Repr

/-- Function `functions`, parse.go 77-133.  `cmtMap` is the comment map that line 81
obtains from `ast.NewCommentMap(fset, f, f.Comments)`. -/
def functions (isUpper : Char → Bool) (f : File) (info : Info) (cmtMap : CommentMap) : Run :=
  match exportedFuncs isUpper f with
  | .panic p => { log := [], result := .panic p }
  | .ok fns =>
    match errorOrVoid fns info with
    | .panic p => { log := [], result := .panic p }
    | .ok fns =>
      match functionsLoop info cmtMap fns [] [] with
      | (log, .panic p) => { log := log, result := .panic p }
      | (log, .ok functions) => { log := log, result := .ok (functions, none) }

/-- Entry `e` is the one the loop body of `functions` builds from declaration `fn`. -/
def BuiltFrom (info : Info) (cmtMap : CommentMap) (fn : FuncDecl) (e : Function) : Prop :=
  ∃ out, buildFunction info cmtMap fn = .ok (e, out)

/-! ## Concrete syntax trees used as examples -/

/-- Type information for the examples, by the text of the type expression. -/
def exInfo : Info where
  TypeOf := fun e =>
    if e.src = "int" then some (.Basic .Int "int")
    else if e.src = "string" then some (.Basic .String "string")
    else if e.src = "*int" then some (.Pointer (.Basic .Int "int"))
    else if e.src = "unsafe.Pointer" then some (.Basic .UnsafePointer "unsafe.Pointer")
    else if e.src = "error" then some (.Other "error")
    else if e.src = "[]string" then some (.Other "[]string")
    else none

/-- Empty comment map. -/
def noComments : CommentMap := fun _ => []

/-- Declaration `func Qux(p *int) { }`: the parser leaves `Results` nil. -/
def declQux : FuncDecl :=
  { ptr := 10, Recv := none, Name := { ptr := 11, Name := "Qux" },
    Typ := { Params := { List := [{ ptr := 12, Names := [{ ptr := 13, Name := "p" }],
                                    Typ := { ptr := 14, src := "*int" } }] },
             Results := none } }

/-- Declaration `func Qux(p *int) () { }`: an empty, present result list. -/
def declQuxParen : FuncDecl :=
  { declQux with Typ := { Params := declQux.Typ.Params, Results := some { List := [] } } }

/-- Declaration `func Foo(a, b int, path string) error`. -/
def declFoo : FuncDecl :=
  { ptr := 20, Recv := none, Name := { ptr := 21, Name := "Foo" },
    Typ := { Params := { List := [
               { ptr := 22, Names := [{ ptr := 23, Name := "a" }, { ptr := 24, Name := "b" }],
                 Typ := { ptr := 25, src := "int" } },
               { ptr := 26, Names := [{ ptr := 27, Name := "path" }],
                 Typ := { ptr := 28, src := "string" } }] },
             Results := some { List := [{ ptr := 29, Names := [],
                                          Typ := { ptr := 30, src := "error" } }] } } }

/-- Declaration `func bar(x int)`. -/
def declBar : FuncDecl :=
  { ptr := 40, Recv := none, Name := { ptr := 41, Name := "bar" },
    Typ := { Params := { List := [{ ptr := 42, Names := [{ ptr := 43, Name := "x" }],
                                    Typ := { ptr := 44, src := "int" } }] },
             Results := some { List := [] } } }

/-- Method `func (t T) Foo() error`. -/
def declMethodFoo : FuncDecl :=
  { ptr := 50,
    Recv := some { List := [{ ptr := 51, Names := [{ ptr := 52, Name := "t" }],
                              Typ := { ptr := 53, src := "T" } }] },
    Name := { ptr := 54, Name := "Foo" },
    Typ := { Params := { List := [] },
             Results := some { List := [{ ptr := 55, Names := [],
                                          Typ := { ptr := 56, src := "error" } }] } } }

/-- Declaration `func Free(unsafe.Pointer) error`, with an unnamed parameter. -/
def declFree : FuncDecl :=
  { ptr := 60, Recv := none, Name := { ptr := 61, Name := "Free" },
    Typ := { Params := { List := [{ ptr := 62, Names := [],
                                    Typ := { ptr := 63, src := "unsafe.Pointer" } }] },
             Results := some { List := [{ ptr := 64, Names := [],
                                          Typ := { ptr := 65, src := "error" } }] } } }

/-- Declaration `func Mix(a int, p unsafe.Pointer, b string, opts []string) error`. -/
def declMix : FuncDecl :=
  { ptr := 70, Recv := none, Name := { ptr := 71, Name := "Mix" },
    Typ := { Params := { List := [
               { ptr := 72, Names := [{ ptr := 73, Name := "a" }],
                 Typ := { ptr := 74, src := "int" } },
               { ptr := 75, Names := [{ ptr := 76, Name := "p" }],
                 Typ := { ptr := 77, src := "unsafe.Pointer" } },
               { ptr := 78, Names := [{ ptr := 79, Name := "b" }],
                 Typ := { ptr := 80, src := "string" } },
               { ptr := 81, Names := [{ ptr := 82, Name := "opts" }],
                 Typ := { ptr := 83, src := "[]string" } }] },
             Results := some { List := [{ ptr := 84, Names := [],
                                          Typ := { ptr := 85, src := "error" } }] } } }

/-- Entry expected for `func Foo(a, b int, path string) error`. -/
def entryFoo : Function :=
  { Name := "Foo",
    Params := [{ Name := "a", Typ := .Int, IsPointer := false, Comment := "" },
               { Name := "b", Typ := .Int, IsPointer := false, Comment := "" },
               { Name := "path", Typ := .String, IsPointer := false, Comment := "" }],
    IsError := true, Comment := "" }

/-- Entry expected for `func Qux(p *int)`. -/
def entryQux : Function :=
  { Name := "Qux",
    Params := [{ Name := "p", Typ := .Int, IsPointer := true, Comment := "" }],
    IsError := false, Comment := "" }

/-- Parameter field `a int`. -/
def fieldA : Field :=
  { ptr := 90, Names := [{ ptr := 91, Name := "a" }], Typ := { ptr := 92, src := "int" } }

/-- Parameter field `opts []string`. -/
def fieldOpts : Field :=
  { ptr := 93, Names := [{ ptr := 94, Name := "opts" }],
    Typ := { ptr := 95, src := "[]string" } }

/-- Declaration `func Run(a int, opts []string) error`. -/
def declRun : FuncDecl :=
  { ptr := 96, Recv := none, Name := { ptr := 97, Name := "Run" },
    Typ := { Params := { List := [fieldA, fieldOpts] },
             Results := some { List := [{ ptr := 98, Names := [],
                                          Typ := { ptr := 99, src := "error" } }] } } }

/-- Entry that `functions` returns for `func Mix(a int, p unsafe.Pointer, b string,
opts []string) error`. -/
def entryMix : Function :=
  { Name := "Mix",
    Params := [{ Name := "a", Typ := .Int, IsPointer := false, Comment := "" }],
    IsError := true, Comment := "" }

/-! ## Readings of the selection rules, to compare with the code -/

/-- Pass A read from the rule: a function declaration without receiver whose name
begins with an upper-case character is kept, every other declaration is not. -/
def exportedFunc (isUpper : Char → Bool) : Decl → Option FuncDecl
  | .funcDecl fn =>
    match fn.Recv, fn.Name.Name.data with
    | none, c :: _ => if isUpper c then some fn else none
    | _, _ => none
  | _ => none

/-- Pass B read from the rule: no return field, or exactly one return field that has
at most one name and whose resolved type prints as "error". -/
def returnsErrorOrNothing (info : Info) (fn : FuncDecl) : Bool :=
  match fn.Typ.Results with
  | none => true
  | some fl =>
    match fl.List with
    | [] => true
    | [ret] =>
      decide (ret.Names.length ≤ 1) &&
        (match info.TypeOf ret.Typ with
         | some t => decide (t.String = "error")
         | none => false)
    | _ => false

/-- Classification of a parameter type read from the rule: a primitive type gives its
kind and the flag false, a pointer to a primitive type gives the kind of the pointee and
the flag true, any other type (or none) gives nothing. -/
def primitiveShape : Option GoType → Option (BasicKind × Bool)
  | some (.Basic k _) => some (k, false)
  | some (.Pointer (.Basic k _)) => some (k, true)
  | _ => none

/-- Whether a field resolves, directly or through one pointer, to the unsafe pointer. -/
def isUnsafeField (info : Info) (field : Field) : Bool :=
  match primitiveShape (info.TypeOf field.Typ) with
  | some (k, _) => decide (k = .UnsafePointer)
  | none => false

/-- Comment of one parameter read from the rule: the comment of the name, else the
comment of the field. -/
def paramComment (cmtMap : CommentMap) (field : Field) (name : Ident) : String :=
  if combine (cmtMap name.ptr) = "" then combine (cmtMap field.ptr) else combine (cmtMap name.ptr)

/-- Parameters one field stands for, read from the rule: one per name, in name order,
all with the kind and pointer flag of the field; none when the type is not primitive. -/
def fieldParams (info : Info) (cmtMap : CommentMap) (field : Field) : List Param :=
  match primitiveShape (info.TypeOf field.Typ) with
  | some (k, pointer) =>
    field.Names.map (fun name =>
      { Name := name.Name, Typ := k, IsPointer := pointer,
        Comment := paramComment cmtMap field name })
  | none => []

/-- Two declarations with the same receiver, name and result list, from which the loop
body of `functions` builds the same. -/
def SameEntry (info : Info) (cmtMap : CommentMap) (g g2 : FuncDecl) : Prop :=
  g.Recv = g2.Recv ∧ g.Name = g2.Name ∧ g.Typ.Results = g2.Typ.Results ∧
    buildFunction info cmtMap g = buildFunction info cmtMap g2

/-- Two top-level declarations that are equal, or function declarations in `SameEntry`. -/
def SameDecl (info : Info) (cmtMap : CommentMap) (d d2 : Decl) : Prop :=
  d = d2 ∨ ∃ g g2, d = .funcDecl g ∧ d2 = .funcDecl g2 ∧ SameEntry info cmtMap g g2

/-- Loop of `errorOrVoid` with the guard `len(ret.Names) > 1` of parse.go 184-186
taken out, everything else as in `errorOrVoidLoop`. -/
def errorOrVoidUnguardedLoop (info : Info) : List FuncDecl → List FuncDecl → Res (List FuncDecl)
  | [], fds => .ok fds
  | fn :: rest, fds =>
    let res := fn.Typ.Results
    if NumFields res > 1 then errorOrVoidUnguardedLoop info rest fds
    else if NumFields res = 0 then errorOrVoidUnguardedLoop info rest (fds ++ [fn])
    else
      match res with
      | none => .panic .nilDereference
      | some fl =>
        match fl.List with
        | [] => .panic .indexOutOfRange
        | ret :: _ =>
          match info.TypeOf ret.Typ with
          | some t =>
            if t.String = "error" then errorOrVoidUnguardedLoop info rest (fds ++ [fn])
            else errorOrVoidUnguardedLoop info rest fds
          | none => errorOrVoidUnguardedLoop info rest fds

/-- Function `errorOrVoid` without the guard on the number of names. -/
def errorOrVoidUnguarded (fns : List FuncDecl) (info : Info) : Res (List FuncDecl) :=
  errorOrVoidUnguardedLoop info fns []

/-- Diagnostics expected for one declaration, read from the rule: one line for the
first parameter field that resolves to the unsafe pointer, with the name of the function
and the first name of that field; no line when there is no such field. -/
def expectedLog (info : Info) (fn : FuncDecl) : List LogRecord :=
  match fn.Typ.Params.List.find? (isUnsafeField info) with
  | some field =>
    match field.Names with
    | name :: _ => [{ format := unsafeFormat, args := [fn.Name.Name, name.Name] }]
    | [] => []
  | none => []

/-- Number of parameters of a declaration that resolve to the unsafe pointer: the names
of the fields that do (an unnamed field counts for one). -/
def unsafeParamCount (info : Info) (fn : FuncDecl) : Nat :=
  NumFields (some { List := fn.Typ.Params.List.filter (isUnsafeField info) })

/-! ## Package lookup -/

/-- Package node `ast.Package`, reduced to its address and name. -/
structure Package where
  ptr : Nat
  Name : String
  deriving DecidableEq, Repr

/-- Function `strings.HasSuffix`: `len(s) >= len(suffix)` and the tail of `s` of that
length equals `suffix`. -/
def HasSuffix (s suffix : String) : Bool :=
  decide (s.data.length ≥ suffix.data.length) &&
    decide (s.data.drop (s.data.length - suffix.data.length) = suffix.data)

/-- Loop of `getPackage`, parse.go 56-60, over the entries of the map `pkgs` in the
order in which the `range` statement visits them. -/
def getPackageLoop : List (String × Package) → Option Package
  | [] => none
  | (name, pkg) :: rest => if !HasSuffix name "_test" then some pkg else getPackageLoop rest

/-- Function `getPackage`, parse.go 51-62.  `parsed` is what `parser.ParseDir` returned
for `path`: the map entries in visiting order and the error (`none` is nil); the result
is the returned pair, package and error message. -/
def getPackage (parsed : List (String × Package) × Option String) (path : String) :
    Option Package × Option String :=
  match parsed with
  | (_, some err) => (none, some err)
  | (pkgs, none) =>
    match getPackageLoop pkgs with
    | some pkg => (some pkg, none)
    | none => (none, some ("no non-test packages found in " ++ path))

/-! ## Further examples -/

/-- Declaration `func Two(p unsafe.Pointer, q unsafe.Pointer) error`. -/
def declTwo : FuncDecl :=
  { ptr := 100, Recv := none, Name := { ptr := 101, Name := "Two" },
    Typ := { Params := { List := [
               { ptr := 102, Names := [{ ptr := 103, Name := "p" }],
                 Typ := { ptr := 104, src := "unsafe.Pointer" } },
               { ptr := 105, Names := [{ ptr := 106, Name := "q" }],
                 Typ := { ptr := 107, src := "unsafe.Pointer" } }] },
             Results := some { List := [{ ptr := 108, Names := [],
                                          Typ := { ptr := 109, src := "error" } }] } } }

/-- Entry that `functions` returns for `func Two(p unsafe.Pointer, q unsafe.Pointer) error`. -/
def entryTwo : Function :=
  { Name := "Two", Params := [], IsError := true, Comment := "" }

/-- Declaration `func F(unsafe.Pointer)`: unnamed parameter, no result list. -/
def declF : FuncDecl :=
  { ptr := 110, Recv := none, Name := { ptr := 111, Name := "F" },
    Typ := { Params := { List := [{ ptr := 112, Names := [],
                                    Typ := { ptr := 113, src := "unsafe.Pointer" } }] },
             Results := none } }

/-- Comment map for `func Foo(a, b int, path string) error`: two groups on the
declaration, one on the field `a, b int`, one on the name `a`. -/
def fooComments : CommentMap := fun ptr =>
  if ptr = 20 then [{ Text := "Foo adds." }, { Text := "It may fail." }]
  else if ptr = 22 then [{ Text := "the operands" }]
  else if ptr = 23 then [{ Text := "the first operand" }]
  else []

/-- Entry expected for Foo under `fooComments`. -/
def entryFooDoc : Function :=
  { Name := "Foo",
    Params := [{ Name := "a", Typ := .Int, IsPointer := false, Comment := "the first operand" },
               { Name := "b", Typ := .Int, IsPointer := false, Comment := "the operands" },
               { Name := "path", Typ := .String, IsPointer := false, Comment := "" }],
    IsError := true, Comment := "Foo adds. It may fail." }

/-- Packages of a directory with an external test package, test package visited first. -/
def exPackages : List (String × Package) :=
  [("calc_test", { ptr := 1, Name := "calc_test" }), ("calc", { ptr := 2, Name := "calc" })]

/-! ## Lemmas on the field count -/

theorem foldl_width (l : List Field) (n : Nat) :
    l.foldl (fun n g => n + (if g.Names.length = 0 then 1 else g.Names.length)) n =
      n + l.foldl (fun n g => n + (if g.Names.length = 0 then 1 else g.Names.length)) 0 := by
  induction l generalizing n with
  | nil => simp
  | cons g l ih =>
    simp only [List.foldl_cons]
    rw [ih (n + _), ih (0 + _)]
    omega

theorem NumFields_nil : NumFields (some { List := [] }) = 0 := rfl

theorem NumFields_cons (g : Field) (l : List Field) :
    NumFields (some { List := g :: l }) =
      (if g.Names.length = 0 then 1 else g.Names.length) + NumFields (some { List := l }) := by
  simp only [NumFields, List.foldl_cons]
  rw [foldl_width]
  omega

theorem NumFields_ge_length (l : List Field) : l.length ≤ NumFields (some { List := l }) := by
  induction l with
  | nil => simp [NumFields]
  | cons g l ih =>
    rw [NumFields_cons]
    simp only [List.length_cons]
    split <;> omega

theorem NumFields_ge_names (l : List Field) (g : Field) (hg : g ∈ l) :
    g.Names.length ≤ NumFields (some { List := l }) := by
  induction l with
  | nil => cases hg
  | cons a l ih =>
    rw [NumFields_cons]
    rcases List.mem_cons.mp hg with h | h
    · subst h
      split <;> omega
    · have := ih h
      omega

/-! ## The two selection passes -/

theorem errorOrVoidLoop_eq (info : Info) (fns fds : List FuncDecl) :
    errorOrVoidLoop info fns fds = .ok (fds ++ fns.filter (returnsErrorOrNothing info)) := by
  induction fns generalizing fds with
  | nil => simp [errorOrVoidLoop]
  | cons fn rest ih =>
    rcases fn with ⟨p, recv, nm, ⟨params, results⟩⟩
    cases results with
    | none =>
      simp [errorOrVoidLoop, NumFields, returnsErrorOrNothing, ih]
    | some fl =>
      rcases fl with ⟨l⟩
      match l with
      | [] => simp [errorOrVoidLoop, NumFields, returnsErrorOrNothing, ih]
      | [ret] =>
        have hN : NumFields (some { List := [ret] }) =
            (if ret.Names.length = 0 then 1 else ret.Names.length) := by
          simp [NumFields]
        by_cases h2 : 1 < ret.Names.length
        · have hN2 : 1 < NumFields (some { List := [ret] }) := by
            rw [hN]; split <;> omega
          have h3 : ¬ ret.Names.length ≤ 1 := by omega
          simp [errorOrVoidLoop, returnsErrorOrNothing, ih, hN2, h3]
        · have hN1 : NumFields (some { List := [ret] }) = 1 := by
            rw [hN]; split <;> omega
          have h3 : ret.Names.length ≤ 1 := by omega
          cases hT : info.TypeOf ret.Typ with
          | none => simp [errorOrVoidLoop, returnsErrorOrNothing, ih, hN1, h2, hT]
          | some t =>
            by_cases ht : t.String = "error" <;>
              simp [errorOrVoidLoop, returnsErrorOrNothing, ih, hN1, h2, h3, hT, ht]
      | g :: g2 :: l2 =>
        have hlen := NumFields_ge_length (g :: g2 :: l2)
        simp only [List.length_cons] at hlen
        have h2 : 1 < NumFields (some { List := g :: g2 :: l2 }) := by omega
        simp [errorOrVoidLoop, returnsErrorOrNothing, ih, h2]

theorem errorOrVoid_eq (fns : List FuncDecl) (info : Info) :
    errorOrVoid fns info = .ok (fns.filter (returnsErrorOrNothing info)) := by
  simp [errorOrVoid, errorOrVoidLoop_eq]

theorem returnsErrorOrNothing_numFields (info : Info) (fn : FuncDecl)
    (h : returnsErrorOrNothing info fn = true) : NumFields fn.Typ.Results ≤ 1 := by
  rcases fn with ⟨p, recv, nm, ⟨params, results⟩⟩
  cases results with
  | none => simp [NumFields]
  | some fl =>
    rcases fl with ⟨l⟩
    match l with
    | [] => simp [NumFields]
    | [ret] =>
      simp only [returnsErrorOrNothing, Bool.and_eq_true, decide_eq_true_eq] at h
      simp only [NumFields, List.foldl_cons, List.foldl_nil]
      split <;> omega
    | g :: g2 :: l2 => simp [returnsErrorOrNothing] at h

theorem exportedFuncsLoop_cases (isUpper : Char → Bool) (decls : List Decl) (fns : List FuncDecl) :
    (∃ p, exportedFuncsLoop isUpper decls fns = .panic p) ∨
      exportedFuncsLoop isUpper decls fns = .ok (fns ++ decls.filterMap (exportedFunc isUpper)) := by
  induction decls generalizing fns with
  | nil => right; simp [exportedFuncsLoop]
  | cons d rest ih =>
    cases d with
    | funcDecl fn =>
      cases hr : fn.Recv with
      | some r =>
        have hstep : exportedFuncsLoop isUpper (.funcDecl fn :: rest) fns =
            exportedFuncsLoop isUpper rest fns := by
          simp [exportedFuncsLoop, hr]
        have hspec : exportedFunc isUpper (.funcDecl fn) = none := by
          simp [exportedFunc, hr]
        rw [hstep, List.filterMap_cons, hspec]
        exact ih fns
      | none =>
        cases hd : fn.Name.Name.data with
        | nil =>
          left
          exact ⟨.indexOutOfRange, by simp [exportedFuncsLoop, hr, hd]⟩
        | cons c cs =>
          by_cases hu : isUpper c = true
          · have hstep : exportedFuncsLoop isUpper (.funcDecl fn :: rest) fns =
                exportedFuncsLoop isUpper rest (fns ++ [fn]) := by
              simp [exportedFuncsLoop, hr, hd, hu]
            have hspec : exportedFunc isUpper (.funcDecl fn) = some fn := by
              simp [exportedFunc, hr, hd, hu]
            rw [hstep, List.filterMap_cons, hspec]
            simpa using ih (fns ++ [fn])
          · have hstep : exportedFuncsLoop isUpper (.funcDecl fn :: rest) fns =
                exportedFuncsLoop isUpper rest fns := by
              simp [exportedFuncsLoop, hr, hd, hu]
            have hspec : exportedFunc isUpper (.funcDecl fn) = none := by
              simp [exportedFunc, hr, hd, hu]
            rw [hstep, List.filterMap_cons, hspec]
            exact ih fns
    | genDecl q =>
      have hstep : exportedFuncsLoop isUpper (.genDecl q :: rest) fns =
          exportedFuncsLoop isUpper rest fns := by
        simp [exportedFuncsLoop]
      rw [hstep, List.filterMap_cons]
      exact ih fns
    | badDecl q =>
      have hstep : exportedFuncsLoop isUpper (.badDecl q :: rest) fns =
          exportedFuncsLoop isUpper rest fns := by
        simp [exportedFuncsLoop]
      rw [hstep, List.filterMap_cons]
      exact ih fns

theorem exportedFuncs_ok (isUpper : Char → Bool) (f : File) (fns : List FuncDecl)
    (h : exportedFuncs isUpper f = .ok fns) : fns = f.Decls.filterMap (exportedFunc isUpper) := by
  unfold exportedFuncs at h
  rcases exportedFuncsLoop_cases isUpper f.Decls [] with ⟨p, hp⟩ | hok
  · rw [hp] at h; cases h
  · rw [hok] at h
    simpa using (Res.ok.inj h).symm

theorem exportedFuncsLoop_total (isUpper : Char → Bool) (decls : List Decl) (fns : List FuncDecl)
    (hne : ∀ fn, Decl.funcDecl fn ∈ decls → fn.Recv = none → fn.Name.Name ≠ "") :
    exportedFuncsLoop isUpper decls fns = .ok (fns ++ decls.filterMap (exportedFunc isUpper)) := by
  induction decls generalizing fns with
  | nil => simp [exportedFuncsLoop]
  | cons d rest ih =>
    have ih2 := fun fns => ih fns (fun fn hfn => hne fn (List.mem_cons_of_mem _ hfn))
    rcases exportedFuncsLoop_cases isUpper (d :: rest) fns with ⟨p, hp⟩ | hok
    · exfalso
      cases d with
      | funcDecl fn =>
        cases hr : fn.Recv with
        | some r =>
          simp [exportedFuncsLoop, hr, ih2] at hp
        | none =>
          cases hd : fn.Name.Name.data with
          | nil =>
            exact hne fn (List.mem_cons_self _ _) hr (String.ext hd)
          | cons c cs =>
            by_cases hu : isUpper c = true <;>
              simp [exportedFuncsLoop, hr, hd, hu, ih2] at hp
      | genDecl q => simp [exportedFuncsLoop, ih2] at hp
      | badDecl q => simp [exportedFuncsLoop, ih2] at hp
    · exact hok

theorem exportedFunc_some (isUpper : Char → Bool) (d : Decl) (fn : FuncDecl)
    (h : exportedFunc isUpper d = some fn) :
    d = .funcDecl fn ∧ fn.Recv = none ∧
      ∃ c cs, fn.Name.Name.data = c :: cs ∧ isUpper c = true := by
  cases d with
  | funcDecl g =>
    cases hr : g.Recv with
    | some r => simp [exportedFunc, hr] at h
    | none =>
      cases hd : g.Name.Name.data with
      | nil => simp [exportedFunc, hr, hd] at h
      | cons c cs =>
        by_cases hu : isUpper c = true
        · simp [exportedFunc, hr, hd, hu] at h
          subst h
          exact ⟨rfl, hr, c, cs, hd, hu⟩
        · simp [exportedFunc, hr, hd, hu] at h
  | genDecl q => simp [exportedFunc] at h
  | badDecl q => simp [exportedFunc] at h

/-! ## The catalogue and the declarations it is built from -/

theorem functionsLoop_ok (info : Info) (cmtMap : CommentMap) (fns : List FuncDecl)
    (acc cat : List Function) (log out : List LogRecord)
    (h : functionsLoop info cmtMap fns acc log = (out, .ok cat)) :
    ∃ entries, cat = acc ++ entries ∧
      List.Forall₂ (BuiltFrom info cmtMap) fns entries := by
  induction fns generalizing acc log with
  | nil =>
    simp only [functionsLoop, Prod.mk.injEq, Res.ok.injEq] at h
    exact ⟨[], by simp [h.2], List.Forall₂.nil⟩
  | cons fn rest ih =>
    cases hb : buildFunction info cmtMap fn with
    | panic p => simp [functionsLoop, hb] at h
    | ok v =>
      rcases v with ⟨e, o⟩
      simp only [functionsLoop, hb] at h
      obtain ⟨entries, hcat, hall⟩ := ih _ _ h
      exact ⟨e :: entries, by simp [hcat], List.Forall₂.cons ⟨o, hb⟩ hall⟩

theorem functions_entries (isUpper : Char → Bool) (f : File) (info : Info) (cmtMap : CommentMap)
    (fns₀ fns : List FuncDecl) (cat : List Function) (err : Option String)
    (hsel : exportedFuncs isUpper f = .ok fns₀) (hret : errorOrVoid fns₀ info = .ok fns)
    (hrun : (functions isUpper f info cmtMap).result = .ok (cat, err)) :
    err = none ∧
      List.Forall₂ (BuiltFrom info cmtMap) fns cat := by
  unfold functions at hrun
  rw [hsel] at hrun
  simp only [hret] at hrun
  cases hl : functionsLoop info cmtMap fns [] [] with
  | mk out r =>
    rw [hl] at hrun
    cases r with
    | panic p => simp at hrun
    | ok fs =>
      simp only [Res.ok.injEq, Prod.mk.injEq] at hrun
      obtain ⟨entries, hcat, hall⟩ := functionsLoop_ok info cmtMap fns [] fs [] out hl
      refine ⟨hrun.2.symm, ?_⟩
      rw [← hrun.1, hcat]
      simpa using hall

theorem functions_selected (isUpper : Char → Bool) (f : File) (info : Info) (cmtMap : CommentMap)
    (cat : List Function) (err : Option String)
    (hrun : (functions isUpper f info cmtMap).result = .ok (cat, err)) :
    ∃ fns₀ fns, exportedFuncs isUpper f = .ok fns₀ ∧ errorOrVoid fns₀ info = .ok fns := by
  cases hsel : exportedFuncs isUpper f with
  | panic p => simp [functions, hsel] at hrun
  | ok fns₀ => exact ⟨fns₀, _, rfl, errorOrVoid_eq fns₀ info⟩

/-! ## The parameter loop -/

theorem namesLoop_eq (cmtMap : CommentMap) (fieldCmt : String) (b : BasicKind) (pointer : Bool)
    (names : List Ident) (params : List Param) :
    namesLoop cmtMap fieldCmt b pointer names params =
      params ++ names.map (fun name =>
        { Name := name.Name, Typ := b, IsPointer := pointer,
          Comment := if combine (cmtMap name.ptr) = "" then fieldCmt
                     else combine (cmtMap name.ptr) }) := by
  induction names generalizing params with
  | nil => simp [namesLoop]
  | cons name rest ih => simp [namesLoop, ih]

theorem primitiveShape_cases (t : Option GoType) :
    (primitiveShape t = none ∧ (∀ k nm, t ≠ some (.Basic k nm)) ∧
        (∀ k nm, t ≠ some (.Pointer (.Basic k nm)))) ∨
      (∃ k nm, t = some (.Basic k nm) ∧ primitiveShape t = some (k, false)) ∨
      (∃ k nm, t = some (.Pointer (.Basic k nm)) ∧ primitiveShape t = some (k, true)) := by
  cases t with
  | none => left; simp [primitiveShape]
  | some ty =>
    cases ty with
    | Basic k nm => right; left; exact ⟨k, nm, rfl, rfl⟩
    | Other str => left; simp [primitiveShape]
    | Pointer elem =>
      cases elem with
      | Basic k nm => right; right; exact ⟨k, nm, rfl, rfl⟩
      | Other str => left; simp [primitiveShape]
      | Pointer e2 => left; simp [primitiveShape]

theorem paramsLoop_skip (info : Info) (cmtMap : CommentMap) (fnName : String) (field : Field)
    (rest : List Field) (params : List Param)
    (h : primitiveShape (info.TypeOf field.Typ) = none) :
    paramsLoop info cmtMap fnName (field :: rest) params =
      paramsLoop info cmtMap fnName rest params := by
  cases ht : info.TypeOf field.Typ with
  | none => simp [paramsLoop, ht, unwrapPointer]
  | some ty =>
    rw [ht] at h
    cases ty with
    | Basic k nm => simp [primitiveShape] at h
    | Other str => simp [paramsLoop, ht, unwrapPointer]
    | Pointer elem =>
      cases elem with
      | Basic k nm => simp [primitiveShape] at h
      | Other str => simp [paramsLoop, ht, unwrapPointer]
      | Pointer e2 => simp [paramsLoop, ht, unwrapPointer]

theorem paramsLoop_append (info : Info) (cmtMap : CommentMap) (fnName : String) (field : Field)
    (rest : List Field) (params : List Param) (k : BasicKind) (pointer : Bool)
    (h : primitiveShape (info.TypeOf field.Typ) = some (k, pointer)) (hk : k ≠ .UnsafePointer) :
    paramsLoop info cmtMap fnName (field :: rest) params =
      paramsLoop info cmtMap fnName rest (params ++ fieldParams info cmtMap field) := by
  rcases primitiveShape_cases (info.TypeOf field.Typ) with ⟨hn, _, _⟩ | ⟨k2, nm, ht, hs⟩ | ⟨k2, nm, ht, hs⟩
  · rw [hn] at h; cases h
  · rw [hs] at h
    obtain ⟨rfl, rfl⟩ := Prod.mk.inj (Option.some.inj h)
    simp [paramsLoop, ht, unwrapPointer, hk, namesLoop_eq, fieldParams, primitiveShape,
      paramComment]
  · rw [hs] at h
    obtain ⟨rfl, rfl⟩ := Prod.mk.inj (Option.some.inj h)
    simp [paramsLoop, ht, unwrapPointer, hk, namesLoop_eq, fieldParams, primitiveShape,
      paramComment]

theorem paramsLoop_stop (info : Info) (cmtMap : CommentMap) (fnName : String) (field : Field)
    (rest : List Field) (params : List Param) (h : isUnsafeField info field = true) :
    paramsLoop info cmtMap fnName (field :: rest) params =
      match field.Names with
      | [] => .panic .indexOutOfRange
      | name :: _ => .ok (params, [{ format := unsafeFormat, args := [fnName, name.Name] }]) := by
  rcases primitiveShape_cases (info.TypeOf field.Typ) with ⟨hn, _, _⟩ | ⟨k2, nm, ht, hs⟩ | ⟨k2, nm, ht, hs⟩
  · simp [isUnsafeField, hn] at h
  · simp only [isUnsafeField, hs, decide_eq_true_eq] at h
    subst h
    simp [paramsLoop, ht, unwrapPointer]
  · simp only [isUnsafeField, hs, decide_eq_true_eq] at h
    subst h
    simp [paramsLoop, ht, unwrapPointer]

theorem fieldParams_of_shape_none (info : Info) (cmtMap : CommentMap) (field : Field)
    (h : primitiveShape (info.TypeOf field.Typ) = none) : fieldParams info cmtMap field = [] := by
  simp [fieldParams, h]

/-- Step of the loop on a field that is not an unsafe pointer: its parameters are
appended and the loop goes on. -/
theorem paramsLoop_step (info : Info) (cmtMap : CommentMap) (fnName : String) (field : Field)
    (rest : List Field) (params : List Param) (h : isUnsafeField info field = false) :
    paramsLoop info cmtMap fnName (field :: rest) params =
      paramsLoop info cmtMap fnName rest (params ++ fieldParams info cmtMap field) := by
  cases hs : primitiveShape (info.TypeOf field.Typ) with
  | none =>
    rw [paramsLoop_skip info cmtMap fnName field rest params hs,
      fieldParams_of_shape_none info cmtMap field hs, List.append_nil]
  | some kp =>
    rcases kp with ⟨k, pointer⟩
    have hk : k ≠ .UnsafePointer := by
      simpa [isUnsafeField, hs] using h
    exact paramsLoop_append info cmtMap fnName field rest params k pointer hs hk

/-- Fields before the first unsafe-pointer field are all consumed. -/
theorem paramsLoop_safe_append (info : Info) (cmtMap : CommentMap) (fnName : String)
    (pre rest : List Field) (params : List Param)
    (hpre : ∀ g ∈ pre, isUnsafeField info g = false) :
    paramsLoop info cmtMap fnName (pre ++ rest) params =
      paramsLoop info cmtMap fnName rest (params ++ pre.flatMap (fieldParams info cmtMap)) := by
  induction pre generalizing params with
  | nil => simp
  | cons g pre ih =>
    have hg : isUnsafeField info g = false := hpre g (List.mem_cons_self _ _)
    have ih2 := fun params => ih params (fun x hx => hpre x (List.mem_cons_of_mem _ hx))
    rw [List.cons_append, paramsLoop_step info cmtMap fnName g _ params hg, ih2]
    simp [List.flatMap_cons, List.append_assoc]

theorem paramsLoop_all_safe (info : Info) (cmtMap : CommentMap) (fnName : String)
    (fields : List Field) (params : List Param)
    (hsafe : ∀ g ∈ fields, isUnsafeField info g = false) :
    paramsLoop info cmtMap fnName fields params =
      .ok (params ++ fields.flatMap (fieldParams info cmtMap), []) := by
  have := paramsLoop_safe_append info cmtMap fnName fields [] params hsafe
  simpa [paramsLoop] using this

/-- Parameters of a returned run of the loop: those of the fields before the first
unsafe-pointer field. -/
theorem paramsLoop_ok_eq (info : Info) (cmtMap : CommentMap) (fnName : String)
    (fields : List Field) (params ps : List Param) (out : List LogRecord)
    (h : paramsLoop info cmtMap fnName fields params = .ok (ps, out)) :
    ps = params ++
      (fields.takeWhile (fun g => !isUnsafeField info g)).flatMap (fieldParams info cmtMap) := by
  induction fields generalizing params with
  | nil =>
    simp only [paramsLoop, Res.ok.injEq, Prod.mk.injEq] at h
    simp [h.1]
  | cons g rest ih =>
    by_cases hg : isUnsafeField info g = true
    · rw [paramsLoop_stop info cmtMap fnName g rest params hg] at h
      cases hn : g.Names with
      | nil => simp [hn] at h
      | cons name names =>
        simp only [hn, Res.ok.injEq, Prod.mk.injEq] at h
        simp [List.takeWhile_cons, hg, h.1]
    · have hg2 : isUnsafeField info g = false := by simpa using hg
      rw [paramsLoop_step info cmtMap fnName g rest params hg2] at h
      rw [ih _ h]
      simp [List.takeWhile_cons, hg2, List.flatMap_cons, List.append_assoc]

/-! ## One entry and its declaration -/

theorem buildFunction_ok (info : Info) (cmtMap : CommentMap) (fn : FuncDecl) (e : Function)
    (h : BuiltFrom info cmtMap fn e) :
    ∃ results out, fn.Typ.Results = some results ∧
      paramsLoop info cmtMap fn.Name.Name fn.Typ.Params.List [] = .ok (e.Params, out) ∧
      e.Name = fn.Name.Name ∧ e.IsError = decide (results.List.length > 0) ∧
      e.Comment = combine (cmtMap fn.ptr) := by
  obtain ⟨out, h⟩ := h
  unfold buildFunction at h
  cases hr : fn.Typ.Results with
  | none => simp [hr] at h
  | some results =>
    cases hp : paramsLoop info cmtMap fn.Name.Name fn.Typ.Params.List [] with
    | panic q => simp [hr, hp] at h
    | ok v =>
      rcases v with ⟨ps, o⟩
      simp only [hr, hp, Res.ok.injEq, Prod.mk.injEq] at h
      obtain ⟨he, ho⟩ := h
      subst he ho
      exact ⟨results, o, rfl, rfl, rfl, rfl, rfl⟩

theorem forall₂_left_mem {α β : Type} {R : α → β → Prop} {l₁ : List α} {l₂ : List β}
    (h : List.Forall₂ R l₁ l₂) : ∀ a ∈ l₁, ∃ b ∈ l₂, R a b := by
  induction h with
  | nil => intro a ha; cases ha
  | cons hab _ ih =>
    intro x hx
    rcases List.mem_cons.mp hx with rfl | hx
    · exact ⟨_, List.mem_cons_self _ _, hab⟩
    · obtain ⟨b, hb, hr⟩ := ih x hx
      exact ⟨b, List.mem_cons_of_mem _ hb, hr⟩

theorem forall₂_right_mem {α β : Type} {R : α → β → Prop} {l₁ : List α} {l₂ : List β}
    (h : List.Forall₂ R l₁ l₂) : ∀ b ∈ l₂, ∃ a ∈ l₁, R a b := by
  induction h with
  | nil => intro b hb; cases hb
  | cons hab _ ih =>
    intro x hx
    rcases List.mem_cons.mp hx with rfl | hx
    · exact ⟨_, List.mem_cons_self _ _, hab⟩
    · obtain ⟨a, ha, hr⟩ := ih x hx
      exact ⟨a, List.mem_cons_of_mem _ ha, hr⟩

/-- A returned catalogue is built, entry by entry and in order, from the declarations
that pass both selection rules. -/
theorem functions_built (isUpper : Char → Bool) (f : File) (info : Info) (cmtMap : CommentMap)
    (cat : List Function) (err : Option String)
    (hrun : (functions isUpper f info cmtMap).result = .ok (cat, err)) :
    List.Forall₂ (BuiltFrom info cmtMap)
      ((f.Decls.filterMap (exportedFunc isUpper)).filter (returnsErrorOrNothing info)) cat := by
  obtain ⟨fns₀, fns, hsel, hret⟩ := functions_selected isUpper f info cmtMap cat err hrun
  have h := (functions_entries isUpper f info cmtMap fns₀ fns cat err hsel hret hrun).2
  have h1 := exportedFuncs_ok isUpper f fns₀ hsel
  rw [errorOrVoid_eq] at hret
  have h2 := Res.ok.inj hret
  rw [← h2, h1] at h
  exact h

/-- Completion of `functions` implies a present result list on every selected declaration. -/
theorem functions_ok_results_present (isUpper : Char → Bool) (f : File) (info : Info)
    (cmtMap : CommentMap) (cat : List Function) (err : Option String) (fn : FuncDecl)
    (hrun : (functions isUpper f info cmtMap).result = .ok (cat, err))
    (hfn : Decl.funcDecl fn ∈ f.Decls) (hrecv : fn.Recv = none)
    (hname : ∃ c cs, fn.Name.Name.data = c :: cs ∧ isUpper c = true) :
    fn.Typ.Results ≠ none := by
  intro hres
  have hall := functions_built isUpper f info cmtMap cat err hrun
  obtain ⟨c, cs, hd, hu⟩ := hname
  have hexp : exportedFunc isUpper (.funcDecl fn) = some fn := by
    simp [exportedFunc, hrecv, hd, hu]
  have hmem : fn ∈ (f.Decls.filterMap (exportedFunc isUpper)).filter
      (returnsErrorOrNothing info) := by
    rw [List.mem_filter]
    refine ⟨List.mem_filterMap.mpr ⟨_, hfn, hexp⟩, ?_⟩
    simp [returnsErrorOrNothing, hres]
  obtain ⟨e, _, hb⟩ := forall₂_left_mem hall fn hmem
  obtain ⟨results, _, hr, _⟩ := buildFunction_ok info cmtMap fn e hb
  rw [hres] at hr
  cases hr

/-- Failure flag of an entry built from a selected declaration: set exactly when the
declaration has one return field, with at most one name, whose type prints as "error". -/
theorem built_isError_iff (info : Info) (cmtMap : CommentMap) (fn : FuncDecl) (e : Function)
    (hb : BuiltFrom info cmtMap fn e) (hsel : returnsErrorOrNothing info fn = true) :
    e.IsError = true ↔
      ∃ ret t, fn.Typ.Results = some { List := [ret] } ∧ ret.Names.length ≤ 1 ∧
        info.TypeOf ret.Typ = some t ∧ t.String = "error" := by
  obtain ⟨results, out, hr, _, _, hflag, _⟩ := buildFunction_ok info cmtMap fn e hb
  rcases results with ⟨l⟩
  rw [hflag]
  match l, hr with
  | [], hr =>
    constructor
    · intro h; simp at h
    · rintro ⟨ret, t, h, _⟩
      rw [hr] at h
      simp at h
  | [r], hr =>
    constructor
    · intro _
      simp only [returnsErrorOrNothing, hr, Bool.and_eq_true, decide_eq_true_eq] at hsel
      cases ht : info.TypeOf r.Typ with
      | none => simp [ht] at hsel
      | some t =>
        simp only [ht, decide_eq_true_eq] at hsel
        exact ⟨r, t, hr, hsel.1, ht, hsel.2⟩
    · intro _; simp
  | r :: r2 :: l2, hr => simp [returnsErrorOrNothing, hr] at hsel

/-- Parameters of an entry: those of the fields before the first unsafe-pointer field. -/
theorem built_params (info : Info) (cmtMap : CommentMap) (fn : FuncDecl) (e : Function)
    (hb : BuiltFrom info cmtMap fn e) :
    e.Params = (fn.Typ.Params.List.takeWhile (fun g => !isUnsafeField info g)).flatMap
      (fieldParams info cmtMap) := by
  obtain ⟨_, out, _, hp, _⟩ := buildFunction_ok info cmtMap fn e hb
  simpa using paramsLoop_ok_eq info cmtMap fn.Name.Name fn.Typ.Params.List [] e.Params out hp

theorem takeWhile_safe_append (info : Info) (pre rest : List Field)
    (hpre : ∀ g ∈ pre, isUnsafeField info g = false) :
    (pre ++ rest).takeWhile (fun g => !isUnsafeField info g) =
      pre ++ rest.takeWhile (fun g => !isUnsafeField info g) := by
  induction pre with
  | nil => simp
  | cons g pre ih =>
    have hg : isUnsafeField info g = false := hpre g (List.mem_cons_self _ _)
    simp [List.takeWhile_cons, hg, ih (fun x hx => hpre x (List.mem_cons_of_mem _ hx))]

/-- Entry of a selected declaration, from the run of `functions` that returned it. -/
theorem entry_built (isUpper : Char → Bool) (f : File) (info : Info) (cmtMap : CommentMap)
    (fns₀ fns : List FuncDecl) (cat : List Function) (err : Option String)
    (fn : FuncDecl) (e : Function)
    (hsel : exportedFuncs isUpper f = .ok fns₀) (hret : errorOrVoid fns₀ info = .ok fns)
    (hrun : (functions isUpper f info cmtMap).result = .ok (cat, err))
    (hmem : (fn, e) ∈ fns.zip cat) : BuiltFrom info cmtMap fn e :=
  List.forall₂_zip (functions_entries isUpper f info cmtMap fns₀ fns cat err hsel hret hrun).2
    hmem

/-- Truncation at the first unsafe-pointer field: the entry has the parameters of the
fields before it. -/
theorem built_params_truncated (info : Info) (cmtMap : CommentMap) (fn : FuncDecl)
    (e : Function) (pre post : List Field) (field : Field)
    (hb : BuiltFrom info cmtMap fn e) (hfields : fn.Typ.Params.List = pre ++ field :: post)
    (hpre : ∀ g ∈ pre, isUnsafeField info g = false)
    (hfield : isUnsafeField info field = true) :
    paramsLoop info cmtMap fn.Name.Name pre [] = .ok (e.Params, []) ∧
      e.Params = pre.flatMap (fieldParams info cmtMap) := by
  have hp := built_params info cmtMap fn e hb
  rw [hfields, takeWhile_safe_append info pre _ hpre] at hp
  simp only [List.takeWhile_cons, hfield, Bool.not_true, Bool.false_eq_true, if_false,
    List.append_nil] at hp
  refine ⟨?_, hp⟩
  rw [paramsLoop_all_safe info cmtMap fn.Name.Name pre [] hpre, hp]
  simp

/-! ## Declarations that the pipeline cannot tell apart -/

/-- Removal of a field whose type is not primitive leaves the loop unchanged. -/
theorem paramsLoop_remove (info : Info) (cmtMap : CommentMap) (fnName : String)
    (before after : List Field) (field : Field) (params : List Param)
    (hother : primitiveShape (info.TypeOf field.Typ) = none) :
    paramsLoop info cmtMap fnName (before ++ field :: after) params =
      paramsLoop info cmtMap fnName (before ++ after) params := by
  induction before generalizing params with
  | nil => simpa using paramsLoop_skip info cmtMap fnName field after params hother
  | cons g before ih =>
    by_cases hg : isUnsafeField info g = true
    · rw [List.cons_append, List.cons_append, paramsLoop_stop info cmtMap fnName g _ params hg,
        paramsLoop_stop info cmtMap fnName g _ params hg]
    · have hg2 : isUnsafeField info g = false := by simpa using hg
      rw [List.cons_append, List.cons_append, paramsLoop_step info cmtMap fnName g _ params hg2,
        paramsLoop_step info cmtMap fnName g _ params hg2, ih]

theorem SameEntry.rfl (info : Info) (cmtMap : CommentMap) (g : FuncDecl) :
    SameEntry info cmtMap g g :=
  ⟨Eq.refl _, Eq.refl _, Eq.refl _, Eq.refl _⟩

theorem forall₂_snoc {α β : Type} {R : α → β → Prop} {l₁ : List α} {l₂ : List β} {a : α}
    {b : β} (h : List.Forall₂ R l₁ l₂) (hab : R a b) : List.Forall₂ R (l₁ ++ [a]) (l₂ ++ [b]) := by
  induction h with
  | nil => exact List.Forall₂.cons hab List.Forall₂.nil
  | cons hxy _ ih => exact List.Forall₂.cons hxy ih

theorem exportedFuncsLoop_congr (isUpper : Char → Bool) (info : Info) (cmtMap : CommentMap)
    (decls decls2 : List Decl) (fns fns2 : List FuncDecl)
    (hd : List.Forall₂ (SameDecl info cmtMap) decls decls2)
    (hf : List.Forall₂ (SameEntry info cmtMap) fns fns2) :
    (∃ p, exportedFuncsLoop isUpper decls fns = .panic p ∧
        exportedFuncsLoop isUpper decls2 fns2 = .panic p) ∨
      ∃ l l2, exportedFuncsLoop isUpper decls fns = .ok l ∧
        exportedFuncsLoop isUpper decls2 fns2 = .ok l2 ∧
        List.Forall₂ (SameEntry info cmtMap) l l2 := by
  induction hd generalizing fns fns2 with
  | nil => right; exact ⟨fns, fns2, by simp [exportedFuncsLoop], by simp [exportedFuncsLoop], hf⟩
  | @cons d d2 rest rest2 hdd _ ih =>
    have key : ∀ g g2, SameEntry info cmtMap g g2 →
        (∃ p, exportedFuncsLoop isUpper (.funcDecl g :: rest) fns = .panic p ∧
          exportedFuncsLoop isUpper (.funcDecl g2 :: rest2) fns2 = .panic p) ∨
        ∃ l l2, exportedFuncsLoop isUpper (.funcDecl g :: rest) fns = .ok l ∧
          exportedFuncsLoop isUpper (.funcDecl g2 :: rest2) fns2 = .ok l2 ∧
          List.Forall₂ (SameEntry info cmtMap) l l2 := by
      intro g g2 hs
      obtain ⟨hrecv, hname, _, _⟩ := hs
      cases hr : g.Recv with
      | some r =>
        have hr2 : g2.Recv = some r := by rw [← hrecv]; exact hr
        simpa [exportedFuncsLoop, hr, hr2] using ih fns fns2 hf
      | none =>
        have hr2 : g2.Recv = none := by rw [← hrecv]; exact hr
        cases hdata : g.Name.Name.data with
        | nil =>
          have hdata2 : g2.Name.Name.data = [] := by rw [← hname]; exact hdata
          left
          exact ⟨.indexOutOfRange, by simp [exportedFuncsLoop, hr, hdata],
            by simp [exportedFuncsLoop, hr2, hdata2]⟩
        | cons c cs =>
          have hdata2 : g2.Name.Name.data = c :: cs := by rw [← hname]; exact hdata
          by_cases hu : isUpper c = true
          · simpa [exportedFuncsLoop, hr, hr2, hdata, hdata2, hu] using
              ih (fns ++ [g]) (fns2 ++ [g2]) (forall₂_snoc hf ⟨hrecv, hname, ‹_›, ‹_›⟩)
          · simpa [exportedFuncsLoop, hr, hr2, hdata, hdata2, hu] using ih fns fns2 hf
    rcases hdd with rfl | ⟨g, g2, rfl, rfl, hs⟩
    · cases d with
      | funcDecl g => exact key g g (SameEntry.rfl info cmtMap g)
      | genDecl q => simpa [exportedFuncsLoop] using ih fns fns2 hf
      | badDecl q => simpa [exportedFuncsLoop] using ih fns fns2 hf
    · exact key g g2 hs

theorem filter_congr_sameEntry (info : Info) (cmtMap : CommentMap) (l l2 : List FuncDecl)
    (h : List.Forall₂ (SameEntry info cmtMap) l l2) :
    List.Forall₂ (SameEntry info cmtMap) (l.filter (returnsErrorOrNothing info))
      (l2.filter (returnsErrorOrNothing info)) := by
  induction h with
  | nil => exact List.Forall₂.nil
  | @cons g g2 rest rest2 hs _ ih =>
    have hpred : returnsErrorOrNothing info g = returnsErrorOrNothing info g2 := by
      simp only [returnsErrorOrNothing, hs.2.2.1]
    cases hp : returnsErrorOrNothing info g2 with
    | true =>
      rw [List.filter_cons_of_pos (by rw [hpred, hp]), List.filter_cons_of_pos hp]
      exact List.Forall₂.cons hs ih
    | false =>
      rw [List.filter_cons_of_neg (by rw [hpred, hp]; simp),
        List.filter_cons_of_neg (by rw [hp]; simp)]
      exact ih

theorem functionsLoop_congr (info : Info) (cmtMap : CommentMap) (l l2 : List FuncDecl)
    (acc : List Function) (log : List LogRecord)
    (h : List.Forall₂ (SameEntry info cmtMap) l l2) :
    functionsLoop info cmtMap l acc log = functionsLoop info cmtMap l2 acc log := by
  induction h generalizing acc log with
  | nil => rfl
  | @cons g g2 rest rest2 hs _ ih =>
    simp only [functionsLoop, hs.2.2.2]
    cases buildFunction info cmtMap g2 with
    | panic q => rfl
    | ok v => exact ih _ _

/-- Units whose declarations correspond in `SameDecl` have the same run of `functions`. -/
theorem functions_congr (isUpper : Char → Bool) (info : Info) (cmtMap : CommentMap)
    (f f2 : File) (h : List.Forall₂ (SameDecl info cmtMap) f.Decls f2.Decls) :
    functions isUpper f info cmtMap = functions isUpper f2 info cmtMap := by
  unfold functions exportedFuncs
  rcases exportedFuncsLoop_congr isUpper info cmtMap f.Decls f2.Decls [] [] h List.Forall₂.nil
    with ⟨p, h1, h2⟩ | ⟨l, l2, h1, h2, hl⟩
  · rw [h1, h2]
  · rw [h1, h2]
    simp only [errorOrVoid_eq]
    rw [functionsLoop_congr info cmtMap _ _ [] [] (filter_congr_sameEntry info cmtMap l l2 hl)]

theorem forall₂_sameDecl_replace (info : Info) (cmtMap : CommentMap) (pre post : List Decl)
    (g g2 : FuncDecl) (hs : SameEntry info cmtMap g g2) :
    List.Forall₂ (SameDecl info cmtMap) (pre ++ .funcDecl g :: post)
      (pre ++ .funcDecl g2 :: post) := by
  induction pre with
  | nil =>
    refine List.Forall₂.cons (Or.inr ⟨g, g2, rfl, rfl, hs⟩) ?_
    exact List.forall₂_same.mpr (fun d _ => Or.inl rfl)
  | cons d pre ih => exact List.Forall₂.cons (Or.inl rfl) ih

/-- Failure flag in a returned catalogue: the entry of a selected declaration has
IsError set exactly when the declaration has one return field, of at most one name,
whose type prints as "error". -/
theorem catalogue_isError_iff (isUpper : Char → Bool) (f : File) (info : Info)
    (cmtMap : CommentMap) (fns₀ fns : List FuncDecl) (cat : List Function)
    (err : Option String) (fn : FuncDecl) (e : Function)
    (hsel : exportedFuncs isUpper f = .ok fns₀) (hret : errorOrVoid fns₀ info = .ok fns)
    (hrun : (functions isUpper f info cmtMap).result = .ok (cat, err))
    (hmem : (fn, e) ∈ fns.zip cat) :
    e.IsError = true ↔
      ∃ ret t, fn.Typ.Results = some { List := [ret] } ∧ ret.Names.length ≤ 1 ∧
        info.TypeOf ret.Typ = some t ∧ t.String = "error" := by
  have hb := entry_built isUpper f info cmtMap fns₀ fns cat err fn e hsel hret hrun hmem
  have hfn : fn ∈ fns := (List.of_mem_zip hmem).1
  rw [errorOrVoid_eq] at hret
  rw [← Res.ok.inj hret] at hfn
  exact built_isError_iff info cmtMap fn e hb (List.mem_filter.mp hfn).2

/-- A declaration with exactly one return value is selected by `errorOrVoid` exactly
when the resolved type of that value prints as "error". -/
theorem single_return_selected_iff (info : Info) (fns : List FuncDecl) (fn : FuncDecl)
    (hfn : fn ∈ fns) (hone : NumFields fn.Typ.Results = 1) :
    fn ∈ fns.filter (returnsErrorOrNothing info) ↔
      ∃ ret t rest, fn.Typ.Results = some { List := ret :: rest } ∧
        info.TypeOf ret.Typ = some t ∧ t.String = "error" := by
  rw [List.mem_filter]
  rcases fn with ⟨p, recv, nm, ⟨params, results⟩⟩
  cases results with
  | none => simp [NumFields] at hone
  | some fl =>
    rcases fl with ⟨l⟩
    match l, hone with
    | [], hone => simp [NumFields] at hone
    | [r], hone =>
      have hone2 : NumFields (some { List := [r] }) = 1 := hone
      have hlen : r.Names.length ≤ 1 := by
        have := NumFields_ge_names [r] r (List.mem_singleton.mpr rfl)
        omega
      constructor
      · rintro ⟨_, h⟩
        simp only [returnsErrorOrNothing, Bool.and_eq_true, decide_eq_true_eq] at h
        cases ht : info.TypeOf r.Typ with
        | none => simp [ht] at h
        | some t =>
          simp only [ht, decide_eq_true_eq] at h
          exact ⟨r, t, [], rfl, ht, h.2⟩
      · rintro ⟨ret, t, rest, hres, ht, hstr⟩
        simp only [Option.some.injEq, FieldList.mk.injEq, List.cons.injEq] at hres
        obtain ⟨rfl, _⟩ := hres
        refine ⟨hfn, ?_⟩
        simp [returnsErrorOrNothing, hlen, ht, hstr]
    | r :: r2 :: l2, hone =>
      have hone2 : NumFields (some { List := r :: r2 :: l2 }) = 1 := hone
      have := NumFields_ge_length (r :: r2 :: l2)
      simp only [List.length_cons] at this
      omega

/-- Names of the entries of a catalogue built from a list of declarations. -/
theorem built_names (info : Info) (cmtMap : CommentMap) (fns : List FuncDecl)
    (cat : List Function) (h : List.Forall₂ (BuiltFrom info cmtMap) fns cat) :
    cat.map (fun e => e.Name) = fns.map (fun g => g.Name.Name) := by
  induction h with
  | nil => rfl
  | @cons g e rest cat2 hb _ ih =>
    obtain ⟨_, _, _, _, hname, _⟩ := buildFunction_ok info cmtMap g e hb
    simp [hname, ih]

/-! ## Joining comment texts -/

theorem Join_append (a b : List String) (sep : String) (ha : a ≠ []) (hb : b ≠ []) :
    Join (a ++ b) sep = Join a sep ++ sep ++ Join b sep := by
  induction a with
  | nil => exact absurd rfl ha
  | cons x rest ih =>
    cases rest with
    | nil =>
      cases b with
      | nil => exact absurd rfl hb
      | cons y ys => simp [Join]
    | cons x2 rest2 =>
      have h := ih (by simp)
      simp only [List.cons_append] at h
      have e1 : Join (x :: x2 :: (rest2 ++ b)) sep =
          x ++ sep ++ Join (x2 :: (rest2 ++ b)) sep := rfl
      have e2 : Join (x :: x2 :: rest2) sep = x ++ sep ++ Join (x2 :: rest2) sep := rfl
      rw [List.cons_append, List.cons_append, e1, h, e2]
      simp only [String.append_assoc]

theorem intercalate_go_eq (sep acc : String) (l : List String) :
    String.intercalate.go acc sep l =
      match l with
      | [] => acc
      | _ :: _ => acc ++ sep ++ Join l sep := by
  induction l generalizing acc with
  | nil => rfl
  | cons a rest ih =>
    simp only [String.intercalate.go]
    rw [ih]
    cases rest with
    | nil => simp [Join]
    | cons b rest2 => simp [Join, String.append_assoc]

theorem Join_eq_intercalate (l : List String) (sep : String) :
    Join l sep = sep.intercalate l := by
  cases l with
  | nil => rfl
  | cons a rest =>
    simp only [String.intercalate]
    rw [intercalate_go_eq]
    cases rest with
    | nil => simp [Join]
    | cons b rest2 => simp [Join, String.append_assoc]

/-! ## The guard of `errorOrVoid` -/

theorem NumFields_one (fl : FieldList) (h : NumFields (some fl) = 1) :
    ∃ ret, fl.List = [ret] ∧ ret.Names.length ≤ 1 := by
  rcases fl with ⟨l⟩
  match l, h with
  | [], h => simp [NumFields] at h
  | [r], h =>
    have := NumFields_ge_names [r] r (List.mem_singleton.mpr rfl)
    exact ⟨r, rfl, by omega⟩
  | r :: r2 :: l2, h =>
    have := NumFields_ge_length (r :: r2 :: l2)
    simp only [List.length_cons] at this
    omega

theorem errorOrVoidUnguardedLoop_eq (info : Info) (fns fds : List FuncDecl) :
    errorOrVoidUnguardedLoop info fns fds = .ok (fds ++ fns.filter (returnsErrorOrNothing info)) := by
  induction fns generalizing fds with
  | nil => simp [errorOrVoidUnguardedLoop]
  | cons fn rest ih =>
    rcases fn with ⟨p, recv, nm, ⟨params, results⟩⟩
    cases results with
    | none =>
      simp [errorOrVoidUnguardedLoop, NumFields, returnsErrorOrNothing, ih]
    | some fl =>
      rcases fl with ⟨l⟩
      match l with
      | [] => simp [errorOrVoidUnguardedLoop, NumFields, returnsErrorOrNothing, ih]
      | [ret] =>
        have hN : NumFields (some { List := [ret] }) =
            (if ret.Names.length = 0 then 1 else ret.Names.length) := by
          simp [NumFields]
        by_cases h2 : 1 < ret.Names.length
        · have hN2 : 1 < NumFields (some { List := [ret] }) := by
            rw [hN]; split <;> omega
          have h3 : ¬ ret.Names.length ≤ 1 := by omega
          simp [errorOrVoidUnguardedLoop, returnsErrorOrNothing, ih, hN2, h3]
        · have hN1 : NumFields (some { List := [ret] }) = 1 := by
            rw [hN]; split <;> omega
          have h3 : ret.Names.length ≤ 1 := by omega
          cases hT : info.TypeOf ret.Typ with
          | none => simp [errorOrVoidUnguardedLoop, returnsErrorOrNothing, ih, hN1, hT]
          | some t =>
            by_cases ht : t.String = "error" <;>
              simp [errorOrVoidUnguardedLoop, returnsErrorOrNothing, ih, hN1, h3, hT, ht]
      | g :: g2 :: l2 =>
        have hlen := NumFields_ge_length (g :: g2 :: l2)
        simp only [List.length_cons] at hlen
        have h2 : 1 < NumFields (some { List := g :: g2 :: l2 }) := by omega
        simp [errorOrVoidUnguardedLoop, returnsErrorOrNothing, ih, h2]

/-! ## Package lookup -/

theorem getPackageLoop_none (pkgs : List (String × Package)) :
    getPackageLoop pkgs = none ↔ ∀ np ∈ pkgs, HasSuffix np.1 "_test" = true := by
  induction pkgs with
  | nil => simp [getPackageLoop]
  | cons np rest ih =>
    rcases np with ⟨name, pkg⟩
    cases hs : HasSuffix name "_test" with
    | true => simp [getPackageLoop, hs, ih]
    | false => simp [getPackageLoop, hs]

theorem getPackageLoop_some (pkgs : List (String × Package)) (pkg : Package)
    (h : getPackageLoop pkgs = some pkg) :
    ∃ name, (name, pkg) ∈ pkgs ∧ HasSuffix name "_test" = false := by
  induction pkgs with
  | nil => simp [getPackageLoop] at h
  | cons np rest ih =>
    rcases np with ⟨name, q⟩
    cases hs : HasSuffix name "_test" with
    | true =>
      simp only [getPackageLoop, hs, Bool.not_true, Bool.false_eq_true, if_false] at h
      obtain ⟨n2, hmem, hn2⟩ := ih h
      exact ⟨n2, List.mem_cons_of_mem _ hmem, hn2⟩
    | false =>
      simp only [getPackageLoop, hs, Bool.not_false, if_true, Option.some.injEq] at h
      subst h
      exact ⟨name, List.mem_cons_self _ _, hs⟩

/-! ## Diagnostics and panics of the parameter loop -/

/-- Diagnostics of a returned run of the loop: one line for the first unsafe-pointer
field, which then has a name; none when there is no such field. -/
theorem paramsLoop_ok_log (info : Info) (cmtMap : CommentMap) (fnName : String)
    (fields : List Field) (params ps : List Param) (out : List LogRecord)
    (h : paramsLoop info cmtMap fnName fields params = .ok (ps, out)) :
    (fields.find? (isUnsafeField info) = none ∧ out = []) ∨
      ∃ field name rest, fields.find? (isUnsafeField info) = some field ∧
        field.Names = name :: rest ∧
        out = [{ format := unsafeFormat, args := [fnName, name.Name] }] := by
  induction fields generalizing params with
  | nil =>
    simp only [paramsLoop, Res.ok.injEq, Prod.mk.injEq] at h
    left
    exact ⟨rfl, h.2.symm⟩
  | cons g rest ih =>
    by_cases hg : isUnsafeField info g = true
    · rw [paramsLoop_stop info cmtMap fnName g rest params hg] at h
      cases hn : g.Names with
      | nil => simp [hn] at h
      | cons name names =>
        simp only [hn, Res.ok.injEq, Prod.mk.injEq] at h
        right
        exact ⟨g, name, names, List.find?_cons_of_pos _ hg, hn, h.2.symm⟩
    · have hg2 : isUnsafeField info g = false := by simpa using hg
      rw [paramsLoop_step info cmtMap fnName g rest params hg2] at h
      rw [List.find?_cons_of_neg _ hg]
      exact ih _ h

/-- The loop panics exactly when its first unsafe-pointer field has no name, and then
with an index out of range. -/
theorem paramsLoop_panic_iff (info : Info) (cmtMap : CommentMap) (fnName : String)
    (fields : List Field) (params : List Param) (p : Panic) :
    paramsLoop info cmtMap fnName fields params = .panic p ↔
      p = .indexOutOfRange ∧
        ∃ field, fields.find? (isUnsafeField info) = some field ∧ field.Names = [] := by
  induction fields generalizing params with
  | nil => simp [paramsLoop]
  | cons g rest ih =>
    by_cases hg : isUnsafeField info g = true
    · rw [paramsLoop_stop info cmtMap fnName g rest params hg, List.find?_cons_of_pos _ hg]
      cases hn : g.Names with
      | nil =>
        constructor
        · intro h
          simp only [Res.panic.injEq] at h
          exact ⟨h.symm, g, rfl, hn⟩
        · rintro ⟨rfl, _⟩
          rfl
      | cons name names =>
        constructor
        · intro h; cases h
        · rintro ⟨_, field, hf, hnames⟩
          simp only [Option.some.injEq] at hf
          subst hf
          rw [hn] at hnames
          cases hnames
    · have hg2 : isUnsafeField info g = false := by simpa using hg
      rw [paramsLoop_step info cmtMap fnName g rest params hg2, List.find?_cons_of_neg _ hg]
      exact ih _

theorem built_log (info : Info) (cmtMap : CommentMap) (fn : FuncDecl) (e : Function)
    (out : List LogRecord) (h : buildFunction info cmtMap fn = .ok (e, out)) :
    out = expectedLog info fn ∧
      ∀ field, fn.Typ.Params.List.find? (isUnsafeField info) = some field →
        ∃ name rest, field.Names = name :: rest := by
  unfold buildFunction at h
  cases hr : fn.Typ.Results with
  | none => simp [hr] at h
  | some results =>
    cases hp : paramsLoop info cmtMap fn.Name.Name fn.Typ.Params.List [] with
    | panic q => simp [hr, hp] at h
    | ok v =>
      rcases v with ⟨ps, o⟩
      simp only [hr, hp, Res.ok.injEq, Prod.mk.injEq] at h
      obtain ⟨_, ho⟩ := h
      subst ho
      rcases paramsLoop_ok_log info cmtMap fn.Name.Name fn.Typ.Params.List [] ps o hp with
        ⟨hnone, hout⟩ | ⟨field, name, rest, hsome, hnames, hout⟩
      · refine ⟨by simp [expectedLog, hnone, hout], ?_⟩
        intro field hf
        rw [hnone] at hf
        cases hf
      · refine ⟨by simp [expectedLog, hsome, hnames, hout], ?_⟩
        intro f2 hf
        rw [hsome] at hf
        cases hf
        exact ⟨name, rest, hnames⟩

/-- Diagnostics of a returned run of the loop of `functions`: those expected for the
declarations, in order, after the ones written before. -/
theorem functionsLoop_ok_log (info : Info) (cmtMap : CommentMap) (fns : List FuncDecl)
    (acc cat : List Function) (log out : List LogRecord)
    (h : functionsLoop info cmtMap fns acc log = (out, .ok cat)) :
    out = log ++ fns.flatMap (expectedLog info) := by
  induction fns generalizing acc log with
  | nil =>
    simp only [functionsLoop, Prod.mk.injEq] at h
    simp [h.1]
  | cons fn rest ih =>
    cases hb : buildFunction info cmtMap fn with
    | panic p => simp [functionsLoop, hb] at h
    | ok v =>
      rcases v with ⟨e, o⟩
      simp only [functionsLoop, hb] at h
      rw [ih _ _ h, (built_log info cmtMap fn e o hb).1]
      simp [List.flatMap_cons, List.append_assoc]

theorem functions_log (isUpper : Char → Bool) (f : File) (info : Info) (cmtMap : CommentMap)
    (fns₀ fns : List FuncDecl) (cat : List Function) (err : Option String)
    (hsel : exportedFuncs isUpper f = .ok fns₀) (hret : errorOrVoid fns₀ info = .ok fns)
    (hrun : (functions isUpper f info cmtMap).result = .ok (cat, err)) :
    (functions isUpper f info cmtMap).log = fns.flatMap (expectedLog info) := by
  unfold functions at hrun ⊢
  rw [hsel] at hrun ⊢
  simp only [hret] at hrun ⊢
  cases hl : functionsLoop info cmtMap fns [] [] with
  | mk out r =>
    rw [hl] at hrun
    cases r with
    | panic p => simp at hrun
    | ok fs =>
      simpa using functionsLoop_ok_log info cmtMap fns [] fs [] out hl

/-- Comments of the entries of a catalogue built from a list of declarations. -/
theorem built_comments (info : Info) (cmtMap : CommentMap) (fns : List FuncDecl)
    (cat : List Function) (h : List.Forall₂ (BuiltFrom info cmtMap) fns cat) :
    cat.map (fun e => e.Comment) = fns.map (fun g => combine (cmtMap g.ptr)) := by
  induction h with
  | nil => rfl
  | @cons g e rest cat2 hb _ ih =>
    obtain ⟨_, _, _, _, _, _, hcmt⟩ := buildFunction_ok info cmtMap g e hb
    simp [hcmt, ih]

/-- The result of `functions` is a panic or a catalogue with the nil error. -/
theorem functions_result_cases (isUpper : Char → Bool) (f : File) (info : Info)
    (cmtMap : CommentMap) :
    (∃ p, (functions isUpper f info cmtMap).result = .panic p) ∨
      ∃ cat, (functions isUpper f info cmtMap).result = .ok (cat, none) := by
  cases hsel : exportedFuncs isUpper f with
  | panic p => exact Or.inl ⟨p, by simp [functions, hsel]⟩
  | ok fns₀ =>
    have hret := errorOrVoid_eq fns₀ info
    cases hl : functionsLoop info cmtMap (fns₀.filter (returnsErrorOrNothing info)) [] [] with
    | mk out r =>
      cases r with
      | panic p => exact Or.inl ⟨p, by simp [functions, hsel, hret, hl]⟩
      | ok fs => exact Or.inr ⟨fs, by simp [functions, hsel, hret, hl]⟩

/-- A returned catalogue has one entry per surviving declaration, in order, with the
name of the declaration and the combined comment groups of the declaration. -/
theorem catalogue_of_survivors (isUpper : Char → Bool) (f : File) (info : Info)
    (cmtMap : CommentMap) (fns₀ fns : List FuncDecl) (cat : List Function)
    (err : Option String)
    (hsel : exportedFuncs isUpper f = .ok fns₀) (hret : errorOrVoid fns₀ info = .ok fns)
    (hrun : (functions isUpper f info cmtMap).result = .ok (cat, err)) :
    cat.length = fns.length ∧
      cat.map (fun e => e.Name) = fns.map (fun g => g.Name.Name) ∧
      cat.map (fun e => e.Comment) = fns.map (fun g => combine (cmtMap g.ptr)) := by
  have hall := (functions_entries isUpper f info cmtMap fns₀ fns cat err hsel hret hrun).2
  exact ⟨hall.length_eq.symm, built_names info cmtMap fns cat hall,
    built_comments info cmtMap fns cat hall⟩

theorem fieldParams_name_comment (info : Info) (cmtMap : CommentMap) (l : List Field) :
    (l.flatMap (fieldParams info cmtMap)).map (fun p => (p.Name, p.Comment)) =
      l.flatMap (fun field =>
        if (primitiveShape (info.TypeOf field.Typ)).isSome then
          field.Names.map (fun name =>
            (name.Name,
              if combine (cmtMap name.ptr) = "" then combine (cmtMap field.ptr)
              else combine (cmtMap name.ptr)))
        else []) := by
  induction l with
  | nil => rfl
  | cons g rest ih =>
    simp only [List.flatMap_cons, List.map_append, ih]
    congr 1
    cases hs : primitiveShape (info.TypeOf g.Typ) with
    | none => simp [fieldParams, hs]
    | some kp =>
      rcases kp with ⟨k, pointer⟩
      simp [fieldParams, hs, paramComment]

/-! ## Claims -/

/-- C1: at `func Qux(p *int) { }`, whose result list is absent, `functions` does not
complete: reading `fn.Type.Results.List` (parse.go 91) is a nil dereference and no
catalogue is returned.  With the empty result list written out, `func Qux(p *int) ()`,
the code returns the single entry Qux with IsError false and the pointer parameter p. -/
theorem functions_absent_results_panics :
    functions Char.isUpper { Decls := [.funcDecl declQux] } exInfo noComments =
        { log := [], result := .panic .nilDereference } ∧
      functions Char.isUpper { Decls := [.funcDecl declQuxParen] } exInfo noComments =
        { log := [], result := .ok ([entryQux], none) } := by
  decide

/-- C2: in a unit that declares `func Foo(a, b int, path string) error` next to
`func Qux(p *int) { }`, `functions` yields no entry for Foo: the run panics on Qux
(nil dereference) and returns no catalogue; on `func Free(unsafe.Pointer) error` alone
it panics as well (index out of range).  On the unit with Foo alone the entry Foo is
returned with IsError true. -/
theorem functions_error_entry_lost :
    functions Char.isUpper { Decls := [.funcDecl declFoo, .funcDecl declQux] } exInfo
        noComments = { log := [], result := .panic .nilDereference } ∧
      functions Char.isUpper { Decls := [.funcDecl declFree] } exInfo noComments =
        { log := [], result := .panic .indexOutOfRange } ∧
      functions Char.isUpper { Decls := [.funcDecl declFoo] } exInfo noComments =
        { log := [], result := .ok ([entryFoo], none) } := by
  decide

/-- C3: `errorOrVoid` returns, in the original order, exactly the declarations with no
return field or with exactly one return field of at most one name whose resolved type
prints as "error"; a declaration with two or more return fields, or with a return field
of two or more names, is not among them. -/
theorem errorOrVoid_returns_sublist (fns : List FuncDecl) (info : Info) :
    errorOrVoid fns info = .ok (fns.filter (returnsErrorOrNothing info)) ∧
      ∀ fn fl, fn.Typ.Results = some fl →
        (2 ≤ fl.List.length ∨ ∃ ret ∈ fl.List, 2 ≤ ret.Names.length) →
        fn ∉ fns.filter (returnsErrorOrNothing info) := by
  refine ⟨errorOrVoid_eq fns info, ?_⟩
  intro fn fl hfl hmany hmem
  have hsel := (List.mem_filter.mp hmem).2
  have hle := returnsErrorOrNothing_numFields info fn hsel
  rw [hfl] at hle
  rcases fl with ⟨l⟩
  rcases hmany with h2 | ⟨ret, hret, h2⟩
  · have := NumFields_ge_length l
    simp only at h2
    omega
  · have := NumFields_ge_names l ret hret
    omega

/-- C4: when every receiver-less function declaration of the file has a non-empty
name, `exportedFuncs` returns, in declaration order, exactly the top-level function
declarations without receiver whose name begins with an upper-case character; the name
of every entry of a returned catalogue begins with an upper-case character, and a
declaration whose first character is not upper-case is not among the declarations the
catalogue is built from. -/
theorem exportedFuncs_returns_sublist (isUpper : Char → Bool) (f : File) (info : Info)
    (cmtMap : CommentMap)
    (hne : ∀ fn, Decl.funcDecl fn ∈ f.Decls → fn.Recv = none → fn.Name.Name ≠ "") :
    exportedFuncs isUpper f = .ok (f.Decls.filterMap (exportedFunc isUpper)) ∧
      (∀ cat err, (functions isUpper f info cmtMap).result = .ok (cat, err) →
        ∀ e ∈ cat, ∃ c cs, e.Name.data = c :: cs ∧ isUpper c = true) ∧
      (∀ fn c cs, fn.Name.Name.data = c :: cs → isUpper c = false →
        fn ∉ f.Decls.filterMap (exportedFunc isUpper) ∧
        ∀ cat err, (functions isUpper f info cmtMap).result = .ok (cat, err) →
          ∃ fns, List.Forall₂ (BuiltFrom info cmtMap) fns cat ∧ fn ∉ fns) := by
  refine ⟨?_, ?_, ?_⟩
  · simpa [exportedFuncs] using exportedFuncsLoop_total isUpper f.Decls [] hne
  · intro cat err hrun e he
    have hall := functions_built isUpper f info cmtMap cat err hrun
    obtain ⟨fn, hfn, hb⟩ := forall₂_right_mem hall e he
    obtain ⟨d, _, hd⟩ := List.mem_filterMap.mp (List.mem_filter.mp hfn).1
    obtain ⟨_, _, c, cs, hdata, hu⟩ := exportedFunc_some isUpper d fn hd
    obtain ⟨_, _, _, _, hname, _⟩ := buildFunction_ok info cmtMap fn e hb
    exact ⟨c, cs, by rw [hname]; exact hdata, hu⟩
  · intro fn c cs hdata hu
    have hnot : fn ∉ f.Decls.filterMap (exportedFunc isUpper) := by
      intro hmem
      obtain ⟨d, _, hd⟩ := List.mem_filterMap.mp hmem
      obtain ⟨_, _, c2, cs2, hdata2, hu2⟩ := exportedFunc_some isUpper d fn hd
      rw [hdata] at hdata2
      obtain ⟨rfl, _⟩ := List.cons.inj hdata2
      rw [hu] at hu2
      cases hu2
    refine ⟨hnot, ?_⟩
    intro cat err hrun
    exact ⟨_, functions_built isUpper f info cmtMap cat err hrun,
      fun hmem => hnot (List.mem_filter.mp hmem).1⟩

/-- C4, checked on the unit `func Foo(a, b int, path string) error`, `func bar(x int)`
and the method `func (t T) Foo() error`. -/
theorem exportedFuncs_returns_sublist_witness :
    exportedFuncs Char.isUpper
        { Decls := [.funcDecl declFoo, .funcDecl declBar, .funcDecl declMethodFoo] } =
      .ok [declFoo] :=
  (exportedFuncs_returns_sublist Char.isUpper
    { Decls := [.funcDecl declFoo, .funcDecl declBar, .funcDecl declMethodFoo] } exInfo
    noComments (by
      intro fn hfn _
      simp only [List.mem_cons, Decl.funcDecl.injEq, List.mem_singleton, List.not_mem_nil,
        or_false] at hfn
      rcases hfn with rfl | rfl | rfl <;> decide)).1

/-- C5 as stated fails: in the unit that declares the method `func (t T) Foo() error`
and the function `func Foo(a, b int, path string) error`, the catalogue has an entry
whose Name is the name of the method. -/
theorem method_name_in_catalogue :
    ¬ ∀ (isUpper : Char → Bool) (f : File) (info : Info) (cmtMap : CommentMap) (fn : FuncDecl)
        (cat : List Function) (err : Option String),
        Decl.funcDecl fn ∈ f.Decls → fn.Recv ≠ none →
        (functions isUpper f info cmtMap).result = .ok (cat, err) →
        ∀ e ∈ cat, e.Name ≠ fn.Name.Name := by
  intro h
  have hrun : (functions Char.isUpper
      { Decls := [.funcDecl declMethodFoo, .funcDecl declFoo] } exInfo noComments).result =
      .ok ([entryFoo], none) := by decide
  exact h Char.isUpper { Decls := [.funcDecl declMethodFoo, .funcDecl declFoo] } exInfo
    noComments declMethodFoo _ _ (by decide) (by decide) hrun _ (List.mem_cons_self _ _) rfl

/-- C5, amended: a declaration that has a receiver is not among the declarations the
returned catalogue is built from; these are function declarations of the unit without
receiver, and the names of the entries are their names, in order. -/
theorem methods_excluded (isUpper : Char → Bool) (f : File) (info : Info)
    (cmtMap : CommentMap) (fns₀ fns : List FuncDecl) (cat : List Function)
    (err : Option String) (fn : FuncDecl)
    (hrecv : fn.Recv ≠ none)
    (hsel : exportedFuncs isUpper f = .ok fns₀) (hret : errorOrVoid fns₀ info = .ok fns)
    (hrun : (functions isUpper f info cmtMap).result = .ok (cat, err)) :
    fn ∉ fns ∧ (∀ g ∈ fns, Decl.funcDecl g ∈ f.Decls ∧ g.Recv = none) ∧
      List.Forall₂ (BuiltFrom info cmtMap) fns cat ∧
      cat.map (fun e => e.Name) = fns.map (fun g => g.Name.Name) := by
  have hall := (functions_entries isUpper f info cmtMap fns₀ fns cat err hsel hret hrun).2
  have h0 := exportedFuncs_ok isUpper f fns₀ hsel
  rw [errorOrVoid_eq] at hret
  have h1 := Res.ok.inj hret
  have hdecl : ∀ g ∈ fns, Decl.funcDecl g ∈ f.Decls ∧ g.Recv = none := by
    intro g hg
    rw [← h1, h0] at hg
    obtain ⟨d, hd, hdg⟩ := List.mem_filterMap.mp (List.mem_filter.mp hg).1
    obtain ⟨rfl, hr, _⟩ := exportedFunc_some isUpper d g hdg
    exact ⟨hd, hr⟩
  exact ⟨fun hmem => hrecv (hdecl fn hmem).2, hdecl, hall, built_names info cmtMap fns cat hall⟩

/-- C5 amended, checked on the unit with the method Foo and the function Foo. -/
theorem methods_excluded_witness :
    declMethodFoo ∉ [declFoo] ∧
      (∀ g ∈ [declFoo], Decl.funcDecl g ∈
          ({ Decls := [.funcDecl declMethodFoo, .funcDecl declFoo] } : File).Decls ∧
        g.Recv = none) ∧
      List.Forall₂ (BuiltFrom exInfo noComments) [declFoo] [entryFoo] ∧
      [entryFoo].map (fun e => e.Name) = [declFoo].map (fun g => g.Name.Name) :=
  methods_excluded Char.isUpper { Decls := [.funcDecl declMethodFoo, .funcDecl declFoo] }
    exInfo noComments [declFoo] [declFoo] [entryFoo] none declMethodFoo (by decide)
    (by decide) (by decide) (by decide)

/-- C6: for a selected declaration all of whose parameter fields resolve to a primitive
kind other than the unsafe pointer, directly or through one pointer, the loop over the
fields returns, without diagnostic, the concatenation in field order of one Param per
declared name in name order, each with the kind and pointer flag of its field, and this
is the Params of the entry; in particular the names of the Params are the declared
names in order. -/
theorem params_flatten (isUpper : Char → Bool) (f : File) (info : Info) (cmtMap : CommentMap)
    (fns₀ fns : List FuncDecl) (cat : List Function) (err : Option String)
    (fn : FuncDecl) (e : Function)
    (hsel : exportedFuncs isUpper f = .ok fns₀) (hret : errorOrVoid fns₀ info = .ok fns)
    (hrun : (functions isUpper f info cmtMap).result = .ok (cat, err))
    (hmem : (fn, e) ∈ fns.zip cat)
    (hprim : ∀ g ∈ fn.Typ.Params.List,
      (primitiveShape (info.TypeOf g.Typ)).isSome = true ∧ isUnsafeField info g = false) :
    paramsLoop info cmtMap fn.Name.Name fn.Typ.Params.List [] =
        .ok (fn.Typ.Params.List.flatMap (fieldParams info cmtMap), []) ∧
      e.Params = fn.Typ.Params.List.flatMap (fieldParams info cmtMap) ∧
      e.Params.map (fun p => p.Name) =
        (fn.Typ.Params.List.flatMap (fun g => g.Names)).map (fun name => name.Name) ∧
      ∀ g ∈ fn.Typ.Params.List, ∃ k pointer,
        primitiveShape (info.TypeOf g.Typ) = some (k, pointer) ∧
        (fieldParams info cmtMap g).map (fun p => (p.Name, p.Typ, p.IsPointer)) =
          g.Names.map (fun name => (name.Name, k, pointer)) := by
  have hb := entry_built isUpper f info cmtMap fns₀ fns cat err fn e hsel hret hrun hmem
  have hsafe : ∀ g ∈ fn.Typ.Params.List, isUnsafeField info g = false :=
    fun g hg => (hprim g hg).2
  have hloop := paramsLoop_all_safe info cmtMap fn.Name.Name fn.Typ.Params.List [] hsafe
  simp only [List.nil_append] at hloop
  obtain ⟨_, out, _, hp, _⟩ := buildFunction_ok info cmtMap fn e hb
  rw [hloop] at hp
  have hpar : e.Params = fn.Typ.Params.List.flatMap (fieldParams info cmtMap) :=
    (Prod.mk.inj (Res.ok.inj hp)).1.symm
  have hshape : ∀ g ∈ fn.Typ.Params.List, ∃ k pointer,
      primitiveShape (info.TypeOf g.Typ) = some (k, pointer) ∧
      (fieldParams info cmtMap g).map (fun p => (p.Name, p.Typ, p.IsPointer)) =
        g.Names.map (fun name => (name.Name, k, pointer)) := by
    intro g hg
    obtain ⟨kp, hkp⟩ := Option.isSome_iff_exists.mp (hprim g hg).1
    rcases kp with ⟨k, pointer⟩
    exact ⟨k, pointer, hkp, by simp [fieldParams, hkp]⟩
  refine ⟨hloop, hpar, ?_, hshape⟩
  rw [hpar]
  have hnames : ∀ l : List Field, (∀ g ∈ l, (primitiveShape (info.TypeOf g.Typ)).isSome = true) →
      (l.flatMap (fieldParams info cmtMap)).map (fun p => p.Name) =
        (l.flatMap (fun g => g.Names)).map (fun name => name.Name) := by
    intro l
    induction l with
    | nil => intro _; simp
    | cons g l ih =>
      intro hl
      obtain ⟨kp, hkp⟩ := Option.isSome_iff_exists.mp (hl g (List.mem_cons_self _ _))
      rcases kp with ⟨k, pointer⟩
      simp only [List.flatMap_cons, List.map_append]
      rw [ih (fun x hx => hl x (List.mem_cons_of_mem _ hx))]
      simp [fieldParams, hkp]
  exact hnames _ (fun g hg => (hprim g hg).1)

/-- C6, checked on `func Foo(a, b int, path string) error`: a:int, b:int, path:string,
none a pointer. -/
theorem params_flatten_witness :
    entryFoo.Params = declFoo.Typ.Params.List.flatMap (fieldParams exInfo noComments) ∧
      entryFoo.Params.map (fun p => (p.Name, p.Typ, p.IsPointer)) =
        [("a", .Int, false), ("b", .Int, false), ("path", .String, false)] :=
  ⟨(params_flatten Char.isUpper { Decls := [.funcDecl declFoo] } exInfo noComments
      [declFoo] [declFoo] [entryFoo] none declFoo entryFoo (by decide) (by decide)
      (by decide) (by decide) (by decide)).2.1, by decide⟩

/-- C7: let a parameter field of a selected declaration come after fields none of
which is an unsafe pointer, and let `k` be a primitive kind other than the unsafe
pointer.  The Params of the entry are those of the earlier fields, then one Param per
name of this field, then those of later fields; if the field resolves to a pointer to
`k`, each of its Params has IsPointer true and Type `k`; if it resolves to `k` itself,
each has IsPointer false and Type `k`. -/
theorem pointer_flag_and_kind (isUpper : Char → Bool) (f : File) (info : Info)
    (cmtMap : CommentMap) (fns₀ fns : List FuncDecl) (cat : List Function)
    (err : Option String) (fn : FuncDecl) (e : Function) (pre post : List Field)
    (field : Field) (k : BasicKind)
    (hsel : exportedFuncs isUpper f = .ok fns₀) (hret : errorOrVoid fns₀ info = .ok fns)
    (hrun : (functions isUpper f info cmtMap).result = .ok (cat, err))
    (hmem : (fn, e) ∈ fns.zip cat)
    (hfields : fn.Typ.Params.List = pre ++ field :: post)
    (hpre : ∀ g ∈ pre, isUnsafeField info g = false)
    (hk : k ≠ .UnsafePointer) :
    ∃ before after, paramsLoop info cmtMap fn.Name.Name pre [] = .ok (before, []) ∧
      (∀ nm, info.TypeOf field.Typ = some (.Pointer (.Basic k nm)) →
        ∃ mid, e.Params = before ++ mid ++ after ∧
          mid.map (fun p => p.Name) = field.Names.map (fun name => name.Name) ∧
          ∀ p ∈ mid, p.IsPointer = true ∧ p.Typ = k) ∧
      (∀ nm, info.TypeOf field.Typ = some (.Basic k nm) →
        ∃ mid, e.Params = before ++ mid ++ after ∧
          mid.map (fun p => p.Name) = field.Names.map (fun name => name.Name) ∧
          ∀ p ∈ mid, p.IsPointer = false ∧ p.Typ = k) := by
  have hb := entry_built isUpper f info cmtMap fns₀ fns cat err fn e hsel hret hrun hmem
  have hp := built_params info cmtMap fn e hb
  rw [hfields, takeWhile_safe_append info pre _ hpre] at hp
  have hbefore := paramsLoop_all_safe info cmtMap fn.Name.Name pre [] hpre
  simp only [List.nil_append] at hbefore
  refine ⟨pre.flatMap (fieldParams info cmtMap),
    (post.takeWhile (fun g => !isUnsafeField info g)).flatMap (fieldParams info cmtMap),
    hbefore, ?_, ?_⟩
  · intro nm ht
    have hshape : primitiveShape (info.TypeOf field.Typ) = some (k, true) := by
      rw [ht]; rfl
    have hsafe : isUnsafeField info field = false := by
      simp [isUnsafeField, hshape, hk]
    refine ⟨fieldParams info cmtMap field, ?_, ?_, ?_⟩
    · rw [hp]
      simp [List.takeWhile_cons, hsafe, List.flatMap_cons, List.append_assoc]
    · simp [fieldParams, hshape]
    · intro p hmid
      simp only [fieldParams, hshape, List.mem_map] at hmid
      obtain ⟨name, _, rfl⟩ := hmid
      exact ⟨rfl, rfl⟩
  · intro nm ht
    have hshape : primitiveShape (info.TypeOf field.Typ) = some (k, false) := by
      rw [ht]; rfl
    have hsafe : isUnsafeField info field = false := by
      simp [isUnsafeField, hshape, hk]
    refine ⟨fieldParams info cmtMap field, ?_, ?_, ?_⟩
    · rw [hp]
      simp [List.takeWhile_cons, hsafe, List.flatMap_cons, List.append_assoc]
    · simp [fieldParams, hshape]
    · intro p hmid
      simp only [fieldParams, hshape, List.mem_map] at hmid
      obtain ⟨name, _, rfl⟩ := hmid
      exact ⟨rfl, rfl⟩

/-- C7, checked on the parameter `p *int` of `func Qux(p *int) ()`. -/
theorem pointer_flag_and_kind_witness :
    ∃ before after, paramsLoop exInfo noComments "Qux" [] [] = .ok (before, []) ∧
      (∀ nm, exInfo.TypeOf { ptr := 14, src := "*int" } = some (.Pointer (.Basic .Int nm)) →
        ∃ mid, entryQux.Params = before ++ mid ++ after ∧
          mid.map (fun p => p.Name) = ["p"] ∧
          ∀ p ∈ mid, p.IsPointer = true ∧ p.Typ = .Int) ∧
      (∀ nm, exInfo.TypeOf { ptr := 14, src := "*int" } = some (.Basic .Int nm) →
        ∃ mid, entryQux.Params = before ++ mid ++ after ∧
          mid.map (fun p => p.Name) = ["p"] ∧
          ∀ p ∈ mid, p.IsPointer = false ∧ p.Typ = .Int) :=
  pointer_flag_and_kind Char.isUpper { Decls := [.funcDecl declQuxParen] } exInfo noComments
    [declQuxParen] [declQuxParen] [entryQux] none declQuxParen entryQux [] []
    { ptr := 12, Names := [{ ptr := 13, Name := "p" }], Typ := { ptr := 14, src := "*int" } }
    .Int (by decide) (by decide) (by decide) (by decide) (by decide) (by decide) (by decide)

/-- C8: at `func Free(unsafe.Pointer) error`, whose first unsafe-pointer field is
unnamed, no entry is emitted: `field.Names[0]` (parse.go 108) is out of range and
`functions` panics.  At `func Mix(a int, p unsafe.Pointer, b string, opts []string) error`
the entry is emitted with the parameter `a` alone and one diagnostic is written. -/
theorem functions_unnamed_pointer_panics :
    functions Char.isUpper { Decls := [.funcDecl declFree] } exInfo noComments =
        { log := [], result := .panic .indexOutOfRange } ∧
      functions Char.isUpper { Decls := [.funcDecl declMix] } exInfo noComments =
        { log := [{ format := unsafeFormat, args := ["Mix", "p"] }],
          result := .ok ([entryMix], none) } := by
  decide

/-- C9: a parameter field whose resolved type, after unwrapping at most one pointer,
is not a primitive type contributes no Param, and the declaration with that field removed
is treated alike: the loop over the fields gives the same parameters, the same entry is
built, and the whole run of `functions` on the unit is the same. -/
theorem nonprimitive_field_dropped (isUpper : Char → Bool) (info : Info) (cmtMap : CommentMap)
    (pre post : List Decl) (fn : FuncDecl) (before after : List Field) (field : Field)
    (hfields : fn.Typ.Params.List = before ++ field :: after)
    (hother : primitiveShape (info.TypeOf field.Typ) = none) :
    paramsLoop info cmtMap fn.Name.Name [field] [] = .ok ([], []) ∧
      paramsLoop info cmtMap fn.Name.Name (before ++ field :: after) [] =
        paramsLoop info cmtMap fn.Name.Name (before ++ after) [] ∧
      buildFunction info cmtMap fn =
        buildFunction info cmtMap
          { fn with Typ := { Params := { List := before ++ after },
                             Results := fn.Typ.Results } } ∧
      functions isUpper { Decls := pre ++ .funcDecl fn :: post } info cmtMap =
        functions isUpper
          { Decls := pre ++ .funcDecl
              { fn with Typ := { Params := { List := before ++ after },
                                 Results := fn.Typ.Results } } :: post } info cmtMap := by
  have hrem := paramsLoop_remove info cmtMap fn.Name.Name before after field [] hother
  have hbuild : buildFunction info cmtMap fn =
      buildFunction info cmtMap
        { fn with Typ := { Params := { List := before ++ after },
                           Results := fn.Typ.Results } } := by
    simp only [buildFunction, hfields, hrem]
  refine ⟨?_, hrem, hbuild, ?_⟩
  · rw [paramsLoop_skip info cmtMap fn.Name.Name field [] [] hother]
    rfl
  · apply functions_congr
    exact forall₂_sameDecl_replace info cmtMap pre post fn _ ⟨rfl, rfl, rfl, hbuild⟩

/-- C9, checked on `func Run(a int, opts []string) error` and its field
`opts []string`. -/
theorem nonprimitive_field_dropped_witness :
    paramsLoop exInfo noComments "Run" [fieldA, fieldOpts] [] =
      paramsLoop exInfo noComments "Run" [fieldA] [] :=
  (nonprimitive_field_dropped Char.isUpper exInfo noComments [] [] declRun [fieldA] []
    fieldOpts (by decide) (by decide)).2.1

/-- C10: in a catalogue that `functions` returns there is one entry per selected
declaration, and each Param of an entry carries the name of a name of a parameter field
of the declaration of that entry, whose resolved type is a primitive type of the kind
Param.Type or a pointer to one, and that kind is not the unsafe pointer. -/
theorem params_are_primitive (isUpper : Char → Bool) (f : File) (info : Info)
    (cmtMap : CommentMap) (fns₀ fns : List FuncDecl) (cat : List Function)
    (err : Option String)
    (hsel : exportedFuncs isUpper f = .ok fns₀) (hret : errorOrVoid fns₀ info = .ok fns)
    (hrun : (functions isUpper f info cmtMap).result = .ok (cat, err)) :
    cat.length = fns.length ∧
      ∀ fn e, (fn, e) ∈ fns.zip cat → ∀ p ∈ e.Params,
        ∃ field ∈ fn.Typ.Params.List, ∃ name ∈ field.Names, p.Name = name.Name ∧
          p.Typ ≠ .UnsafePointer ∧
          ∃ nm, info.TypeOf field.Typ = some (.Basic p.Typ nm) ∨
            info.TypeOf field.Typ = some (.Pointer (.Basic p.Typ nm)) := by
  have hall := (functions_entries isUpper f info cmtMap fns₀ fns cat err hsel hret hrun).2
  refine ⟨hall.length_eq.symm, ?_⟩
  intro fn e hmem p hp
  have hb : BuiltFrom info cmtMap fn e := List.forall₂_zip hall hmem
  rw [built_params info cmtMap fn e hb] at hp
  obtain ⟨g, hg, hpg⟩ := List.mem_flatMap.mp hp
  have hgmem : g ∈ fn.Typ.Params.List := (List.takeWhile_sublist _).subset hg
  have hgsafe : isUnsafeField info g = false := by
    simpa using List.mem_takeWhile_imp hg
  refine ⟨g, hgmem, ?_⟩
  rcases primitiveShape_cases (info.TypeOf g.Typ) with
    ⟨hn, _, _⟩ | ⟨k, nm, ht, hs⟩ | ⟨k, nm, ht, hs⟩
  · simp [fieldParams, hn] at hpg
  · have hk : k ≠ .UnsafePointer := by simpa [isUnsafeField, hs] using hgsafe
    simp only [fieldParams, hs, List.mem_map] at hpg
    obtain ⟨name, hname, rfl⟩ := hpg
    exact ⟨name, hname, rfl, hk, nm, Or.inl ht⟩
  · have hk : k ≠ .UnsafePointer := by simpa [isUnsafeField, hs] using hgsafe
    simp only [fieldParams, hs, List.mem_map] at hpg
    obtain ⟨name, hname, rfl⟩ := hpg
    exact ⟨name, hname, rfl, hk, nm, Or.inr ht⟩

/-- C10, checked on the catalogue of the unit with Foo and Mix. -/
theorem params_are_primitive_witness :
    [entryFoo, entryMix].length = [declFoo, declMix].length ∧
      ∀ fn e, (fn, e) ∈ [declFoo, declMix].zip [entryFoo, entryMix] → ∀ p ∈ e.Params,
        ∃ field ∈ fn.Typ.Params.List, ∃ name ∈ field.Names, p.Name = name.Name ∧
          p.Typ ≠ .UnsafePointer ∧
          ∃ nm, exInfo.TypeOf field.Typ = some (.Basic p.Typ nm) ∨
            exInfo.TypeOf field.Typ = some (.Pointer (.Basic p.Typ nm)) :=
  params_are_primitive Char.isUpper { Decls := [.funcDecl declFoo, .funcDecl declMix] }
    exInfo noComments [declFoo, declMix] [declFoo, declMix] [entryFoo, entryMix] none
    (by decide) (by decide) (by decide)

/-- C11: the declaration `func Qux(p *int) { }` survives `exportedFuncs` followed by
`errorOrVoid`, yet `functions` produces no entry for it: the run panics (nil
dereference) and returns no catalogue.  On the unit with Foo and Mix, whose result
lists are present, one entry per survivor is returned, in order, with the combined
comments of the declarations, Mix with its truncated parameter list. -/
theorem functions_survivor_without_entry :
    exportedFuncs Char.isUpper { Decls := [.funcDecl declQux] } = .ok [declQux] ∧
      errorOrVoid [declQux] exInfo = .ok [declQux] ∧
      functions Char.isUpper { Decls := [.funcDecl declQux] } exInfo fooComments =
        { log := [], result := .panic .nilDereference } ∧
      functions Char.isUpper { Decls := [.funcDecl declFoo, .funcDecl declMix] } exInfo
          fooComments =
        { log := [{ format := unsafeFormat, args := ["Mix", "p"] }],
          result := .ok ([entryFooDoc, entryMix], none) } := by
  decide

/-- C12: `combine` of no group is the empty string, of one group is the text of the
group, of two non-empty lists put together is the two results with one space between;
it is the texts of the groups, in order, joined by one space. -/
theorem combine_joins_texts :
    combine [] = "" ∧ (∀ g : CommentGroup, combine [g] = g.Text) ∧
      (∀ xs ys : List CommentGroup, xs ≠ [] → ys ≠ [] →
        combine (xs ++ ys) = combine xs ++ " " ++ combine ys) ∧
      ∀ xs : List CommentGroup, combine xs = " ".intercalate (xs.map (fun g => g.Text)) := by
  refine ⟨rfl, fun g => rfl, ?_, ?_⟩
  · intro xs ys hx hy
    unfold combine
    rw [List.map_append]
    exact Join_append _ _ " " (by simpa using hx) (by simpa using hy)
  · intro xs
    exact Join_eq_intercalate _ " "

/-- C13: in a returned catalogue, the names and comments of the Params of an entry are,
over the parameter fields before the first unsafe-pointer field and the names of each
primitive field in order, the name with its own combined comment when that is not
empty, else with the combined comment of the field (the empty string when the field has
no comment group either). -/
theorem param_comment_rule (isUpper : Char → Bool) (f : File) (info : Info)
    (cmtMap : CommentMap) (fns₀ fns : List FuncDecl) (cat : List Function)
    (err : Option String) (fn : FuncDecl) (e : Function)
    (hsel : exportedFuncs isUpper f = .ok fns₀) (hret : errorOrVoid fns₀ info = .ok fns)
    (hrun : (functions isUpper f info cmtMap).result = .ok (cat, err))
    (hmem : (fn, e) ∈ fns.zip cat) :
    e.Params.map (fun p => (p.Name, p.Comment)) =
        (fn.Typ.Params.List.takeWhile (fun g => !isUnsafeField info g)).flatMap (fun field =>
          if (primitiveShape (info.TypeOf field.Typ)).isSome then
            field.Names.map (fun name =>
              (name.Name,
                if combine (cmtMap name.ptr) = "" then combine (cmtMap field.ptr)
                else combine (cmtMap name.ptr)))
          else []) ∧
      ∀ p ∈ e.Params, ∃ field ∈ fn.Typ.Params.List, ∃ name ∈ field.Names,
        p.Name = name.Name ∧
        (combine (cmtMap name.ptr) ≠ "" → p.Comment = combine (cmtMap name.ptr)) ∧
        (combine (cmtMap name.ptr) = "" → p.Comment = combine (cmtMap field.ptr)) ∧
        (cmtMap name.ptr = [] → cmtMap field.ptr = [] → p.Comment = "") := by
  have hb := entry_built isUpper f info cmtMap fns₀ fns cat err fn e hsel hret hrun hmem
  have hp := built_params info cmtMap fn e hb
  refine ⟨by rw [hp]; exact fieldParams_name_comment info cmtMap _, ?_⟩
  intro p hpmem
  rw [hp] at hpmem
  obtain ⟨g, hg, hpg⟩ := List.mem_flatMap.mp hpmem
  have hgmem : g ∈ fn.Typ.Params.List := (List.takeWhile_sublist _).subset hg
  refine ⟨g, hgmem, ?_⟩
  cases hs : primitiveShape (info.TypeOf g.Typ) with
  | none => simp [fieldParams, hs] at hpg
  | some kp =>
    rcases kp with ⟨k, pointer⟩
    simp only [fieldParams, hs, List.mem_map] at hpg
    obtain ⟨name, hname, rfl⟩ := hpg
    refine ⟨name, hname, rfl, ?_, ?_, ?_⟩
    · intro hne
      simp [paramComment, hne]
    · intro heq
      simp [paramComment, heq]
    · intro hn hf
      simp [paramComment, hn, hf, combine, Join]

/-- C13, checked on `func Foo(a, b int, path string) error` where the field `a, b int`
and the name `a` have a comment: `a` gets its own, `b` that of the field, `path` none. -/
theorem param_comment_rule_witness :
    entryFooDoc.Params.map (fun p => (p.Name, p.Comment)) =
      [("a", "the first operand"), ("b", "the operands"), ("path", "")] :=
  (param_comment_rule Char.isUpper { Decls := [.funcDecl declFoo] } exInfo fooComments
    [declFoo] [declFoo] [entryFooDoc] none declFoo entryFooDoc (by decide) (by decide)
    (by decide) (by decide)).1.trans (by decide)

/-- C14: `functions` either panics or returns a catalogue with the nil error; whenever
it returns, the error value is nil. -/
theorem functions_error_is_nil (isUpper : Char → Bool) (f : File) (info : Info)
    (cmtMap : CommentMap) :
    ((∃ p, (functions isUpper f info cmtMap).result = .panic p) ∨
        ∃ cat, (functions isUpper f info cmtMap).result = .ok (cat, none)) ∧
      ∀ cat err, (functions isUpper f info cmtMap).result = .ok (cat, err) → err = none := by
  refine ⟨functions_result_cases isUpper f info cmtMap, ?_⟩
  intro cat err hrun
  obtain ⟨fns₀, fns, hsel, hret⟩ := functions_selected isUpper f info cmtMap cat err hrun
  exact (functions_entries isUpper f info cmtMap fns₀ fns cat err hsel hret hrun).1

/-- C15: when `parser.ParseDir` reported no error, `getPackage` fails exactly when every
package name ends in "_test", and then with the message "no non-test packages found in "
followed by the path; otherwise it returns, with the nil error, a package of the set
whose name does not end in "_test".  An error of `parser.ParseDir` is returned as is. -/
theorem getPackage_fails_iff (pkgs : List (String × Package)) (path : String) :
    ((getPackage (pkgs, none) path).2 ≠ none ↔
        ∀ np ∈ pkgs, HasSuffix np.1 "_test" = true) ∧
      ((∀ np ∈ pkgs, HasSuffix np.1 "_test" = true) →
        getPackage (pkgs, none) path =
          (none, some ("no non-test packages found in " ++ path))) ∧
      ((getPackage (pkgs, none) path).2 = none →
        ∃ name pkg, (name, pkg) ∈ pkgs ∧ HasSuffix name "_test" = false ∧
          getPackage (pkgs, none) path = (some pkg, none)) ∧
      ∀ err, getPackage (pkgs, some err) path = (none, some err) := by
  cases hl : getPackageLoop pkgs with
  | none =>
    have hall := (getPackageLoop_none pkgs).mp hl
    have hval : getPackage (pkgs, none) path =
        (none, some ("no non-test packages found in " ++ path)) := by
      simp [getPackage, hl]
    refine ⟨?_, fun _ => hval, ?_, fun err => rfl⟩
    · rw [hval]
      simpa using hall
    · intro h
      rw [hval] at h
      simp at h
  | some pkg =>
    obtain ⟨name, hmem, hname⟩ := getPackageLoop_some pkgs pkg hl
    have hval : getPackage (pkgs, none) path = (some pkg, none) := by
      simp [getPackage, hl]
    refine ⟨?_, ?_, fun _ => ⟨name, pkg, hmem, hname, hval⟩, fun err => rfl⟩
    · rw [hval]
      constructor
      · intro h; exact absurd rfl h
      · intro hall
        have := hall (name, pkg) hmem
        simp only at this
        rw [hname] at this
        cases this
    · intro hall
      have := hall (name, pkg) hmem
      simp only at this
      rw [hname] at this
      cases this

/-- C16 as stated fails: for `func Two(p unsafe.Pointer, q unsafe.Pointer) error`, with
two parameters that resolve to the unsafe pointer, `functions` writes one line, so the
number of lines is not the number of such parameters. -/
theorem one_line_for_two_pointers :
    ¬ ∀ (isUpper : Char → Bool) (f : File) (info : Info) (cmtMap : CommentMap)
        (fns₀ fns : List FuncDecl) (cat : List Function) (err : Option String),
        exportedFuncs isUpper f = .ok fns₀ → errorOrVoid fns₀ info = .ok fns →
        (functions isUpper f info cmtMap).result = .ok (cat, err) →
        (functions isUpper f info cmtMap).log.length =
          (fns.map (unsafeParamCount info)).sum := by
  intro h
  have h2 := h Char.isUpper { Decls := [.funcDecl declTwo] } exInfo noComments [declTwo]
    [declTwo] [entryTwo] none (by decide) (by decide) (by decide)
  revert h2
  decide

/-- C16, amended: in a run of `functions` that returns, the diagnostics written are, in
the order of the selected declarations, one line for each declaration that has a
parameter field resolving to the unsafe pointer, with the name of the function and the
first name of the first such field, and no line for a declaration without such a field. -/
theorem diagnostics_first_pointer_field (isUpper : Char → Bool) (f : File) (info : Info)
    (cmtMap : CommentMap) (fns₀ fns : List FuncDecl) (cat : List Function)
    (err : Option String)
    (hsel : exportedFuncs isUpper f = .ok fns₀) (hret : errorOrVoid fns₀ info = .ok fns)
    (hrun : (functions isUpper f info cmtMap).result = .ok (cat, err)) :
    (functions isUpper f info cmtMap).log = fns.flatMap (expectedLog info) ∧
      ∀ fn ∈ fns,
        ((∀ g ∈ fn.Typ.Params.List, isUnsafeField info g = false) →
          expectedLog info fn = []) ∧
        ∀ pre field post, fn.Typ.Params.List = pre ++ field :: post →
          (∀ g ∈ pre, isUnsafeField info g = false) → isUnsafeField info field = true →
          ∃ name rest, field.Names = name :: rest ∧
            expectedLog info fn =
              [{ format := unsafeFormat, args := [fn.Name.Name, name.Name] }] := by
  have hall := (functions_entries isUpper f info cmtMap fns₀ fns cat err hsel hret hrun).2
  refine ⟨functions_log isUpper f info cmtMap fns₀ fns cat err hsel hret hrun, ?_⟩
  intro fn hfn
  obtain ⟨e, _, out, hb⟩ := forall₂_left_mem hall fn hfn
  have hnamed := (built_log info cmtMap fn e out hb).2
  constructor
  · intro hsafe
    have hnone : fn.Typ.Params.List.find? (isUnsafeField info) = none := by
      rw [List.find?_eq_none]
      intro g hg
      simp [hsafe g hg]
    simp [expectedLog, hnone]
  · intro pre field post hfields hpre hfield
    have hsome : fn.Typ.Params.List.find? (isUnsafeField info) = some field := by
      rw [List.find?_eq_some]
      exact ⟨hfield, pre, post, hfields, fun a ha => by simp [hpre a ha]⟩
    obtain ⟨name, rest, hnames⟩ := hnamed field hsome
    exact ⟨name, rest, hnames, by simp [expectedLog, hsome, hnames]⟩

/-- C16 amended, checked on the unit with Foo and Mix: one line, for Mix and its
parameter p. -/
theorem diagnostics_first_pointer_field_witness :
    (functions Char.isUpper { Decls := [.funcDecl declFoo, .funcDecl declMix] } exInfo
        noComments).log = [{ format := unsafeFormat, args := ["Mix", "p"] }] :=
  (diagnostics_first_pointer_field Char.isUpper
    { Decls := [.funcDecl declFoo, .funcDecl declMix] } exInfo noComments [declFoo, declMix]
    [declFoo, declMix] [entryFoo, entryMix] none (by decide) (by decide)
    (by decide)).1.trans (by decide)

/-- C17: at `func Free(unsafe.Pointer) error` the field of the unsafe-pointer parameter
has no name, and the access `field.Names[0]` of parse.go 108 is out of range: the loop
over the fields, the loop body and `functions` panic and extraction does not complete.
At `func F(unsafe.Pointer)` extraction does not complete either, by the nil dereference
of the absent result list. -/
theorem names_index_out_of_range :
    paramsLoop exInfo noComments "Free" declFree.Typ.Params.List [] =
        .panic .indexOutOfRange ∧
      buildFunction exInfo noComments declFree = .panic .indexOutOfRange ∧
      (functions Char.isUpper { Decls := [.funcDecl declFree] } exInfo noComments).result =
        .panic .indexOutOfRange ∧
      (functions Char.isUpper { Decls := [.funcDecl declF] } exInfo noComments).result =
        .panic .nilDereference := by
  decide

/-- C18: a result list whose `NumFields` is 1 has exactly one field, and that field has
at most one name (a nil list has `NumFields` 0); `errorOrVoid` never panics, so
`res.List[0]` is in bounds; and `errorOrVoid` without the guard `len(ret.Names) > 1`
returns the same as `errorOrVoid` on every input. -/
theorem errorOrVoid_guard_is_dead :
    NumFields none = 0 ∧
      (∀ fl : FieldList, NumFields (some fl) = 1 →
        ∃ ret, fl.List = [ret] ∧ ret.Names.length ≤ 1) ∧
      (∀ (fns : List FuncDecl) (info : Info), ∃ out, errorOrVoid fns info = .ok out) ∧
      ∀ (fns : List FuncDecl) (info : Info),
        errorOrVoidUnguarded fns info = errorOrVoid fns info := by
  refine ⟨rfl, NumFields_one, fun fns info => ⟨_, errorOrVoid_eq fns info⟩, ?_⟩
  intro fns info
  rw [errorOrVoid_eq]
  simp [errorOrVoidUnguarded, errorOrVoidUnguardedLoop_eq]

end Parse
